import Mathlib

/-!
Verification of the canvas-blur scripts (versions 1, 2, 3 and 5).

The JavaScript sources are embedded shallowly:

* JS numbers that arise in these scripts are exact rationals together with
  the special values NaN and Infinity.  They are represented by `JSNum`,
  where `JSNum.frac n d` denotes the rational `n / d` (the representation is
  unnormalised so that all operations are integer computations; the
  interpretation is `JSNum.toVal`).  Reading a typed array out of bounds
  yields `undefined` in JS; under the arithmetic performed here (`+`, `/`)
  `undefined` behaves exactly like NaN, so such reads are modelled by
  `JSNum.nan`.
* An `ImageData` object is a width, a height and a flat RGBA byte buffer
  (`Uint8ClampedArray`), modelled as a `List ℕ`.  Stores into the buffer
  clamp to `[0, 255]` and round half to even, exactly as
  `Uint8ClampedArray` does; NaN is stored as 0 and Infinity as 255.
  Out-of-range stores are ignored, as for JS typed arrays.
* Exceptions are modelled with `Except`: `CoordinateError` is the value
  thrown by version 1 `convertCoordsToIndex`.
* The mutating nested loops become left folds over the (fixed) lists of
  loop indices, threading the buffer state.
-/

/-- A JS number as it occurs in these scripts: an exact rational
(unnormalised fraction `n / d`), NaN, or (positive) Infinity.
Negative infinity cannot arise: every operand of the divisions performed
by the scripts is a nonnegative total. -/
inductive JSNum where
  | frac (n : ℤ) (d : ℕ)
  | nan
  | inf
deriving DecidableEq

/-- The rational value of a `JSNum`; `none` for NaN, Infinity and the
unreachable zero-denominator representations. -/
def JSNum.toVal : JSNum → Option ℚ
  | JSNum.frac n d => if d = 0 then none else some ((n : ℚ) / (d : ℚ))
  | JSNum.nan => none
  | JSNum.inf => none

/-- JS addition on the values occurring here (NaN absorbs; Infinity absorbs
everything except NaN; fractions add exactly). -/
def jsAdd : JSNum → JSNum → JSNum
  | JSNum.nan, _ => JSNum.nan
  | _, JSNum.nan => JSNum.nan
  | JSNum.inf, _ => JSNum.inf
  | _, JSNum.inf => JSNum.inf
  | JSNum.frac a b, JSNum.frac c d => JSNum.frac (a * (d : ℤ) + c * (b : ℤ)) (b * d)

/-- JS division of a number by a natural count (the only division these
scripts perform).  Division by zero follows JS: `0 / 0` is NaN and a
positive total over zero is Infinity (the totals divided here are always
nonnegative). -/
def jsDivNat : JSNum → ℕ → JSNum
  | JSNum.nan, _ => JSNum.nan
  | JSNum.inf, _ => JSNum.inf
  | JSNum.frac a b, n =>
      if n = 0 then (if a = 0 then JSNum.nan else JSNum.inf)
      else JSNum.frac a (b * n)

/-- Round `s / n` to the nearest natural number, ties to even — the
rounding `Uint8ClampedArray` applies to fractional stores. -/
def roundHalfEvenDiv (s n : ℕ) : ℕ :=
  if n = 0 then 0
  else if 2 * (s % n) < n then s / n
  else if n < 2 * (s % n) then s / n + 1
  else if (s / n) % 2 = 0 then s / n else s / n + 1

/-- Clamp the rational `a / b` (with `b ≠ 0`) into a byte, rounding half
to even, as `Uint8ClampedArray` stores it. -/
def clampFrac (a : ℤ) (b : ℕ) : ℕ :=
  if a ≤ 0 then 0
  else if (255 : ℤ) * (b : ℤ) ≤ a then 255
  else roundHalfEvenDiv a.toNat b

/-- The byte actually stored when a `JSNum` is assigned into a
`Uint8ClampedArray`: NaN becomes 0, Infinity becomes 255, rationals are
clamped and rounded half to even. -/
def clampJS : JSNum → ℕ
  | JSNum.nan => 0
  | JSNum.inf => 255
  | JSNum.frac a b => if b = 0 then 0 else clampFrac a b

/-- Reading index `i` of a typed array: in range yields the byte, out of
range yields `undefined`, which the surrounding arithmetic treats as NaN. -/
def jsRead (d : List ℕ) (i : ℤ) : JSNum :=
  if 0 ≤ i ∧ i < (d.length : ℤ) then JSNum.frac (d.getD i.toNat 0 : ℤ) 1 else JSNum.nan

/-- Storing value `v` at index `i` of a typed array: in range the clamped
byte is stored, out of range the store is ignored. -/
def writeByte (d : List ℕ) (i : ℤ) (v : JSNum) : List ℕ :=
  if 0 ≤ i ∧ i.toNat < d.length then d.set i.toNat (clampJS v) else d

/-- The four channel values of one pixel, as JS numbers. -/
abbrev Pix4 := JSNum × JSNum × JSNum × JSNum

/-- Component `c` (0–3) of a pixel quadruple. -/
def pixGet (p : Pix4) : ℕ → JSNum
  | 0 => p.1
  | 1 => p.2.1
  | 2 => p.2.2.1
  | _ => p.2.2.2

/-- The four consecutive stores `d[i] = p[0]; … ; d[i+3] = p[3]`. -/
def writePix (d : List ℕ) (i : ℤ) (p : Pix4) : List ℕ :=
  writeByte (writeByte (writeByte (writeByte d i p.1) (i + 1) p.2.1) (i + 2) p.2.2.1)
    (i + 3) p.2.2.2

/-- An `ImageData`: width, height and the flat RGBA byte buffer. -/
structure ImageData where
  width : ℕ
  height : ℕ
  data : List ℕ
deriving DecidableEq

/-- Well-formedness as guaranteed by the canvas API: the buffer holds four
bytes per pixel. -/
def ImageData.WF (img : ImageData) : Prop :=
  img.data.length = 4 * img.width * img.height ∧ ∀ v ∈ img.data, v ≤ 255

instance (img : ImageData) : Decidable img.WF :=
  inferInstanceAs (Decidable (img.data.length = 4 * img.width * img.height ∧
    ∀ v ∈ img.data, v ≤ 255))

/-- `context.createImageData(w, h)`: a zero-initialised image. -/
def zeroImage (w h : ℕ) : ImageData := ⟨w, h, List.replicate (4 * w * h) 0⟩

/-- The byte stored for channel `ch` of the pixel at `(x, y)`. -/
def pixByte (img : ImageData) (x y ch : ℕ) : Option ℕ :=
  img.data.get? ((y * img.width + x) * 4 + ch)

/-- The pixel coordinates visited by the nested
`for (y …) for (x …)` loops, row by row. -/
def loopPixels (w h : ℕ) : List (ℕ × ℕ) :=
  (List.range h).flatMap (fun y => (List.range w).map (fun x => (x, y)))

/-- The value thrown by version 1 `convertCoordsToIndex`. -/
structure CoordinateError where
deriving DecidableEq

instance {α : Type} [DecidableEq α] : DecidableEq (Except CoordinateError α) := by
  intro a b
  cases a <;> cases b
  case ok.ok x y => exact decidable_of_iff (x = y) (by simp)
  case error.error e f => exact Decidable.isTrue (by cases e; cases f; rfl)
  all_goals exact Decidable.isFalse (by simp)

namespace V1

/-- v1 `CanvasImageData.convertCoordsToIndex(x, y)`: throws
`CoordinateError` when `x < 0 || x > width || y < 0 || y > height`,
otherwise returns `(y * width * 4) + (x * 4)`. -/
def convertCoordsToIndex (img : ImageData) (x y : ℤ) : Except CoordinateError ℤ :=
  if x < 0 ∨ x > (img.width : ℤ) ∨ y < 0 ∨ y > (img.height : ℤ) then
    Except.error ⟨⟩
  else
    Except.ok (y * (img.width : ℤ) * 4 + x * 4)

/-- v1 `CanvasImageData.getPixel(x, y)`: the whole body is wrapped in
`try { … } catch (e) { return false }`, so the thrown `CoordinateError` is
caught and the sentinel `false` (here `none`) is returned instead; on
success the four-element array of reads at `pos … pos + 3` is returned. -/
def getPixel (img : ImageData) (x y : ℤ) : Except CoordinateError (Option Pix4) :=
  match convertCoordsToIndex img x y with
  | Except.error _ => Except.ok none
  | Except.ok pos =>
      Except.ok (some (jsRead img.data pos, jsRead img.data (pos + 1),
        jsRead img.data (pos + 2), jsRead img.data (pos + 3)))

/-- The returned value of `getPixel` (which never propagates an
exception). -/
def getPixelV (img : ImageData) (x y : ℤ) : Option Pix4 :=
  match getPixel img x y with
  | Except.ok v => v
  | Except.error _ => none

/-- v1 `CanvasImageData.setPixel(x, y, pixelValues)`: the conversion is
wrapped in `try { … } catch (e) { return false }`; on success the four
channel values are stored at `pos … pos + 3`. -/
def setPixel (img : ImageData) (x y : ℤ) (p : Pix4) : Except CoordinateError ImageData :=
  match convertCoordsToIndex img x y with
  | Except.error _ => Except.ok img
  | Except.ok pos => Except.ok { img with data := writePix img.data pos p }

/-- The image state after `setPixel` (which never propagates an
exception). -/
def setPixelV (img : ImageData) (x y : ℤ) (p : Pix4) : ImageData :=
  match setPixel img x y p with
  | Except.ok i => i
  | Except.error _ => img

/-- The literal `surroundingPixels` list of v1 `blur`, including the
`[x * 1, y]` entry that the source comments label "Middle right". -/
def surroundingPixels (x y : ℤ) : List (ℤ × ℤ) :=
  [(x - 1, y - 1), (x, y - 1), (x + 1, y - 1), (x - 1, y), (x * 1, y),
   (x - 1, y + 1), (x, y + 1), (x + 1, y + 1)]

/-- One iteration of the `for (p …)` loop of v1 `blur`: get the pixel at a
surrounding coordinate and, if it is truthy, add its four components to
the totals and bump `numberOfPixels`. -/
def totalsStep (img : ImageData) (acc : Pix4 × ℕ) (c : ℤ × ℤ) : Pix4 × ℕ :=
  match getPixelV img c.1 c.2 with
  | some p =>
      ((jsAdd acc.1.1 p.1, jsAdd acc.1.2.1 p.2.1, jsAdd acc.1.2.2.1 p.2.2.1,
        jsAdd acc.1.2.2.2 p.2.2.2), acc.2 + 1)
  | none => acc

/-- The totals and `numberOfPixels` accumulated over `surroundingPixels`
for the pixel at `(x, y)`. -/
def totals (img : ImageData) (x y : ℤ) : Pix4 × ℕ :=
  (surroundingPixels x y).foldl (totalsStep img)
    ((JSNum.frac 0 1, JSNum.frac 0 1, JSNum.frac 0 1, JSNum.frac 0 1), 0)

/-- The `pixelValue` array computed by v1 `blur` for the pixel at
`(x, y)`: each total divided by `numberOfPixels`. -/
def pixelValue (img : ImageData) (x y : ℤ) : Pix4 :=
  ((jsDivNat (totals img x y).1.1 (totals img x y).2,
    jsDivNat (totals img x y).1.2.1 (totals img x y).2,
    jsDivNat (totals img x y).1.2.2.1 (totals img x y).2,
    jsDivNat (totals img x y).1.2.2.2 (totals img x y).2))

/-- The first pass of v1 `blur`: reads come from the original
`canvasImageData` (`src`), writes go into the fresh `newImage` (`dst`). -/
def blurPass (src dst : ImageData) : ImageData :=
  (loopPixels src.width src.height).foldl
    (fun d xy => setPixelV d (xy.1 : ℤ) (xy.2 : ℤ) (pixelValue src (xy.1 : ℤ) (xy.2 : ℤ)))
    dst

/-- Every later pass of v1 `blur`: after `this.canvasImageData = newImage`
inside the pass loop, reads and writes hit the same object, so each
`setPixel` is visible to the following `getPixel`s of the same pass. -/
def blurPassInPlace (im : ImageData) : ImageData :=
  (loopPixels im.width im.height).foldl
    (fun d xy => setPixelV d (xy.1 : ℤ) (xy.2 : ℤ) (pixelValue d (xy.1 : ℤ) (xy.2 : ℤ)))
    im

/-- v1 `CanvasImage.blur(passes)`: `newImage` is created once (zeroed, via
`createImageData`), the pass loop runs `passes` times, and
`this.canvasImageData` is redirected to `newImage` at the end of each
pass — hence one two-buffer pass followed by in-place passes. -/
def blur (img : ImageData) (passes : ℕ) : ImageData :=
  match passes with
  | 0 => img
  | n + 1 => Nat.iterate blurPassInPlace n (blurPass img (zeroImage img.width img.height))

/-- v1 `CanvasImage.flipHorizontal()`: each pixel `(x, y)` is copied to
`(-(x - width) - 1, y)` of a fresh zeroed image (the `if (pixel)` guard
skips the sentinel `false`). -/
def flipHorizontal (img : ImageData) : ImageData :=
  (loopPixels img.width img.height).foldl
    (fun d xy =>
      match getPixelV img (xy.1 : ℤ) (xy.2 : ℤ) with
      | some p => setPixelV d (-((xy.1 : ℤ) - (img.width : ℤ)) - 1) (xy.2 : ℤ) p
      | none => d)
    (zeroImage img.width img.height)

end V1

namespace V2

/-- The literal `surroundingPixels` offset list of v2 `blur`, relative to
`pos`, with `w4 = this.width * 4`. -/
def surroundingPixels (pos w4 : ℤ) : List ℤ :=
  [pos - w4 - 4, pos - w4, pos - w4 + 4, pos - 4, pos + 4, pos + w4 - 4, pos + w4, pos + w4 + 4]

/-- One iteration of the `for (p …)` loop of v2 `blur`: the offset is used
only when `0 <= sp && sp <= imageDataLength - 3`; then the four bytes at
`sp … sp + 3` are added to the totals and `numberOfPixels` is bumped. -/
def totalsStep (data : List ℕ) (len : ℤ) (acc : Pix4 × ℕ) (sp : ℤ) : Pix4 × ℕ :=
  if 0 ≤ sp ∧ sp ≤ len - 3 then
    ((jsAdd acc.1.1 (jsRead data sp), jsAdd acc.1.2.1 (jsRead data (sp + 1)),
      jsAdd acc.1.2.2.1 (jsRead data (sp + 2)), jsAdd acc.1.2.2.2 (jsRead data (sp + 3))),
     acc.2 + 1)
  else acc

/-- The totals and `numberOfPixels` accumulated by v2 `blur` for the pixel
starting at buffer offset `pos`. -/
def totals (data : List ℕ) (len w4 pos : ℤ) : Pix4 × ℕ :=
  (surroundingPixels pos w4).foldl (totalsStep data len)
    ((JSNum.frac 0 1, JSNum.frac 0 1, JSNum.frac 0 1, JSNum.frac 0 1), 0)

/-- The `pixelValue` array computed by v2 `blur` for the pixel at offset
`pos`. -/
def pixelValue (data : List ℕ) (len w4 pos : ℤ) : Pix4 :=
  ((jsDivNat (totals data len w4 pos).1.1 (totals data len w4 pos).2,
    jsDivNat (totals data len w4 pos).1.2.1 (totals data len w4 pos).2,
    jsDivNat (totals data len w4 pos).1.2.2.1 (totals data len w4 pos).2,
    jsDivNat (totals data len w4 pos).1.2.2.2 (totals data len w4 pos).2))

/-- The pixel offsets `0, 4, 8, …` visited by `for (pos = 0; pos <
imageDataLength; pos += 4)`. -/
def posList (len : ℕ) : List ℤ :=
  (List.range ((len + 3) / 4)).map (fun k => ((4 * k : ℕ) : ℤ))

/-- The first pass of v2 `blur`: reads from `this.imageData.data` (`src`),
writes into the fresh `newImage` buffer (`dst`). -/
def blurPassTwoBuf (src : List ℕ) (len w4 : ℤ) (ps : List ℤ) (dst : List ℕ) : List ℕ :=
  ps.foldl (fun d pos => writePix d pos (pixelValue src len w4 pos)) dst

/-- Every later pass of v2 `blur`: after `this.imageData = newImage`,
reads and writes hit the same buffer. -/
def blurPassInPlace (len w4 : ℤ) (ps : List ℤ) (d0 : List ℕ) : List ℕ :=
  ps.foldl (fun d pos => writePix d pos (pixelValue d len w4 pos)) d0

/-- v2 `CanvasImage.blur(passes)`: `imageDataLength` and `width * 4` are
captured once at entry, `newImage` is created once (zeroed), and
`this.imageData` is redirected to `newImage` at the end of each pass. -/
def blur (img : ImageData) (passes : ℕ) : ImageData :=
  let len : ℤ := (img.data.length : ℤ)
  let w4 : ℤ := (img.width : ℤ) * 4
  let ps := posList img.data.length
  match passes with
  | 0 => img
  | n + 1 =>
      { img with
        data := Nat.iterate (blurPassInPlace len w4 ps) n
          (blurPassTwoBuf img.data len w4 ps
            (List.replicate (4 * img.width * img.height) 0)) }

end V2

/-- The canvas 2D context state that versions 3 and 5 touch: the
`globalAlpha` compositing setting, every other configuration slot
(modelled abstractly as numbered settings), and the log of `drawImage`
calls together with the alpha in effect for each. -/
structure Ctx2D where
  globalAlpha : ℚ
  settings : List (ℕ × ℚ)
  drawLog : List (ℚ × ℤ × ℤ)

/-- `context.drawImage(element, x, y)`: composites at the current
`globalAlpha`; it changes no context configuration. -/
def drawImage (ctx : Ctx2D) (x y : ℤ) : Ctx2D :=
  { ctx with drawLog := ctx.drawLog ++ [(ctx.globalAlpha, x, y)] }

namespace V3

/-- The nine offsets drawn per pass by v3 `blur` (`y` outer from −1 to 1,
`x` inner from −1 to 1). -/
def offsets3 : List (ℤ × ℤ) :=
  [(-1, -1), (0, -1), (1, -1), (-1, 0), (0, 0), (1, 0), (-1, 1), (0, 1), (1, 1)]

/-- v3 `CanvasImage.blur(passes)`: set `globalAlpha = 0.125`, draw the
canvas over itself at the nine offsets once per pass, then set
`globalAlpha = 1.0`. -/
def blur (ctx : Ctx2D) (passes : ℤ) : Ctx2D :=
  let c1 := { ctx with globalAlpha := 1 / 8 }
  let c2 := Nat.iterate (fun c => offsets3.foldl (fun c p => drawImage c p.1 p.2) c)
    passes.toNat c1
  { c2 with globalAlpha := 1 }

end V3

namespace V5

/-- The integers from `lo` to `hi` inclusive (empty when `hi < lo`). -/
def intRange (lo hi : ℤ) : List ℤ :=
  (List.range (hi + 1 - lo).toNat).map (fun k => lo + (k : ℤ))

/-- v5 `CanvasImage.blur(strength)`: set `globalAlpha = 0.5`, draw the
canvas over itself at every offset with both coordinates in
`[-strength, strength]`, then set `globalAlpha = 1.0`. -/
def blur (ctx : Ctx2D) (strength : ℤ) : Ctx2D :=
  let c1 := { ctx with globalAlpha := 1 / 2 }
  let c2 := (intRange (-strength) strength).foldl
    (fun c y => (intRange (-strength) strength).foldl (fun c x => drawImage c x y) c) c1
  { c2 with globalAlpha := 1 }

end V5

/-- Modelled from the spec (glossary): the 3x3 neighborhood of `(x, y)` —
"itself and its immediate neighbors". -/
def box3x3 (x y : ℤ) : List (ℤ × ℤ) :=
  [(x - 1, y - 1), (x, y - 1), (x + 1, y - 1), (x - 1, y), (x, y), (x + 1, y),
   (x - 1, y + 1), (x, y + 1), (x + 1, y + 1)]

/-- Whether `(x, y)` lies within the image bounds. -/
def inBoundsP (img : ImageData) (p : ℤ × ℤ) : Bool :=
  decide (0 ≤ p.1 ∧ p.1 < (img.width : ℤ) ∧ 0 ≤ p.2 ∧ p.2 < (img.height : ℤ))

/-- The stored byte of channel `ch` of the pixel at an (in-bounds)
coordinate pair, row-major. -/
def byteN (img : ImageData) (p : ℤ × ℤ) (ch : ℕ) : ℕ :=
  img.data.getD ((p.2.toNat * img.width + p.1.toNat) * 4 + ch) 0

/-- Modelled from the spec: the box-blur replacement value for channel
`ch` of the pixel at `(x, y)` — the average of that channel over the
pixels of the 3x3 neighborhood that lie within the image bounds. -/
def specAvgQ (img : ImageData) (x y : ℤ) (ch : ℕ) : ℚ :=
  let nb := (box3x3 x y).filter (inBoundsP img)
  ((nb.map (fun p => (byteN img p ch : ℚ))).sum) / (nb.length : ℚ)

/-- The byte a canvas stores for the average of the given channel values:
their sum over their count, rounded half to even. -/
def specStoredAvg (vals : List ℕ) : ℕ :=
  roundHalfEvenDiv vals.sum vals.length

/-- A 2x1 test image: left pixel all 8, right pixel all 16. -/
def imgB2 : ImageData := ⟨2, 1, [8, 8, 8, 8, 16, 16, 16, 16]⟩

/-- A 3x3 test image: all black except the center pixel, whose four
channels are 90. -/
def imgC3 : ImageData := ⟨3, 3, [0, 0, 0, 0, 0, 0, 0, 0, 0, 0, 0, 0,
                                 0, 0, 0, 0, 90, 90, 90, 90, 0, 0, 0, 0,
                                 0, 0, 0, 0, 0, 0, 0, 0, 0, 0, 0, 0]⟩

/-- A 3x3 test image with every byte equal to 10. -/
def imgW3 : ImageData := ⟨3, 3, List.replicate 36 10⟩

/-- A sequence of pixel stores: each entry is a base byte offset paired
with the four channel values to store there. -/
def writeAll (L : List (ℕ × Pix4)) (d : List ℕ) : List ℕ :=
  L.foldl (fun d e => writePix d (e.1 : ℤ) e.2) d

/-- The byte-offset/value list written by one v1-style pass over all the
pixels of a `w × h` image: the source pixel `(x, y)` is written to the
target column `tx x` with value `f x y` (for `blur`, `tx` is the
identity; for `flipHorizontal` it mirrors the column). -/
def passWrites (w h : ℕ) (tx : ℕ → ℕ) (f : ℕ → ℕ → Pix4) : List (ℕ × Pix4) :=
  (loopPixels w h).map (fun xy => ((xy.2 * w + tx xy.1) * 4, f xy.1 xy.2))

/-- The quadruple of reads `data[pos] … data[pos+3]` for the pixel at the
in-range coordinates `(x, y)`. -/
def readPix (img : ImageData) (x y : ℕ) : Pix4 :=
  (jsRead img.data (((y * img.width + x) * 4 : ℕ) : ℤ),
   jsRead img.data ((((y * img.width + x) * 4 : ℕ) : ℤ) + 1),
   jsRead img.data ((((y * img.width + x) * 4 : ℕ) : ℤ) + 2),
   jsRead img.data ((((y * img.width + x) * 4 : ℕ) : ℤ) + 3))

/-- The body of one v3 pass: nine `drawImage` calls. -/
def v3Pass : Ctx2D → Ctx2D :=
  fun c => V3.offsets3.foldl (fun c p => drawImage c p.1 p.2) c

/-- One row of v5 draws at vertical offset `y`. -/
def v5Row (s : ℤ) : Ctx2D → ℤ → Ctx2D :=
  fun c y => (V5.intRange (-s) s).foldl (fun c x => drawImage c x y) c

/-- The byte at channel `j` of the surrounding coordinate `c`, read at the
index `convertCoordsToIndex` computes for it. -/
def V1.sampleByte (img : ImageData) (c : ℤ × ℤ) (j : ℕ) : ℕ :=
  img.data.getD ((c.2 * (img.width : ℤ) * 4 + c.1 * 4).toNat + j) 0

/-- The surrounding coordinates of `(x, y)` that pass the v1 boundary
check (those v1 `blur` actually samples). -/
def V1.sampled (img : ImageData) (x y : ℤ) : List (ℤ × ℤ) :=
  (V1.surroundingPixels x y).filter (fun c => (V1.getPixelV img c.1 c.2).isSome)

/-- The byte at channel `j` of the pixel starting at buffer offset `sp`. -/
def V2.sampleByte (data : List ℕ) (sp : ℤ) (j : ℕ) : ℕ :=
  data.getD (sp.toNat + j) 0

/-- The surrounding offsets of `pos` that pass the v2 bounds check (those
v2 `blur` actually samples). -/
def V2.sampled (len w4 pos : ℤ) : List ℤ :=
  (V2.surroundingPixels pos w4).filter (fun sp => decide (0 ≤ sp ∧ sp ≤ len - 3))

/-! ### Machinery: stores, folds of stores, and the loop index lists -/

lemma specAvgQ_eval (img : ImageData) (x y : ℤ) (ch : ℕ) :
    specAvgQ img x y ch
      = ((((box3x3 x y).filter (inBoundsP img)).map (fun p => (byteN img p ch : ℚ))).sum)
        / ((((box3x3 x y).filter (inBoundsP img)).length : ℚ)) := rfl

lemma writeByte_length (d : List ℕ) (i : ℤ) (v : JSNum) :
    (writeByte d i v).length = d.length := by
  unfold writeByte
  split <;> simp

lemma writeByte_get_ne (d : List ℕ) (i : ℤ) (v : JSNum) (j : ℕ) (h : (j : ℤ) ≠ i) :
    (writeByte d i v).get? j = d.get? j := by
  unfold writeByte
  split
  · rename_i hc
    have hne : i.toNat ≠ j := by omega
    simp [List.get?_eq_getElem?, List.getElem?_set_ne hne]
  · rfl

lemma writeByte_get_eq (d : List ℕ) (i : ℤ) (v : JSNum) (j : ℕ) (hj : (j : ℤ) = i)
    (hlt : j < d.length) : (writeByte d i v).get? j = some (clampJS v) := by
  unfold writeByte
  have h0 : 0 ≤ i := by omega
  have ht : i.toNat = j := by omega
  rw [if_pos ⟨h0, by omega⟩, ht]
  simp [List.get?_eq_getElem?, List.getElem?_set_self, hlt]

lemma writePix_length (d : List ℕ) (i : ℤ) (p : Pix4) :
    (writePix d i p).length = d.length := by
  unfold writePix
  simp [writeByte_length]

lemma writePix_get_out (d : List ℕ) (b : ℕ) (p : Pix4) (j : ℕ) (h : j < b ∨ b + 4 ≤ j) :
    (writePix d (b : ℤ) p).get? j = d.get? j := by
  unfold writePix
  rw [writeByte_get_ne _ _ _ _ (by omega), writeByte_get_ne _ _ _ _ (by omega),
    writeByte_get_ne _ _ _ _ (by omega), writeByte_get_ne _ _ _ _ (by omega)]

lemma writePix_get_c (d : List ℕ) (b : ℕ) (p : Pix4) (c : ℕ) (hc : c < 4)
    (hlen : b + 4 ≤ d.length) :
    (writePix d (b : ℤ) p).get? (b + c) = some (clampJS (pixGet p c)) := by
  have l1 := writeByte_length d (b : ℤ) p.1
  have l2 := writeByte_length (writeByte d (b : ℤ) p.1) ((b : ℤ) + 1) p.2.1
  have l3 := writeByte_length (writeByte (writeByte d (b : ℤ) p.1) ((b : ℤ) + 1) p.2.1)
    ((b : ℤ) + 2) p.2.2.1
  rcases (by omega : c = 0 ∨ c = 1 ∨ c = 2 ∨ c = 3) with h | h | h | h <;> subst h
  · unfold writePix
    rw [writeByte_get_ne _ _ _ _ (by omega), writeByte_get_ne _ _ _ _ (by omega),
      writeByte_get_ne _ _ _ _ (by omega), writeByte_get_eq _ _ _ _ (by omega) (by omega)]
    rfl
  · unfold writePix
    rw [writeByte_get_ne _ _ _ _ (by omega), writeByte_get_ne _ _ _ _ (by omega),
      writeByte_get_eq _ _ _ _ (by omega) (by omega)]
    rfl
  · unfold writePix
    rw [writeByte_get_ne _ _ _ _ (by omega), writeByte_get_eq _ _ _ _ (by omega) (by omega)]
    rfl
  · unfold writePix
    rw [writeByte_get_eq _ _ _ _ (by omega) (by omega)]
    rfl

lemma writeAll_cons (e : ℕ × Pix4) (L : List (ℕ × Pix4)) (d : List ℕ) :
    writeAll (e :: L) d = writeAll L (writePix d (e.1 : ℤ) e.2) := rfl

lemma writeAll_length (L : List (ℕ × Pix4)) : ∀ d : List ℕ, (writeAll L d).length = d.length := by
  induction L with
  | nil => intro d; rfl
  | cons e L ih =>
    intro d
    rw [writeAll_cons, ih, writePix_length]

lemma writeAll_get_out (L : List (ℕ × Pix4)) : ∀ (d : List ℕ) (j : ℕ),
    (∀ e ∈ L, j < e.1 ∨ e.1 + 4 ≤ j) → (writeAll L d).get? j = d.get? j := by
  induction L with
  | nil => intro d j _; rfl
  | cons e L ih =>
    intro d j hj
    rw [writeAll_cons, ih _ _ (fun e' he' => hj e' (List.mem_cons_of_mem _ he')),
      writePix_get_out _ _ _ _ (hj e (List.mem_cons_self _ _))]

lemma writeAll_get_mem (L : List (ℕ × Pix4)) : ∀ (d : List ℕ),
    (L.map Prod.fst).Nodup → (∀ e ∈ L, 4 ∣ e.1) → (∀ e ∈ L, e.1 + 4 ≤ d.length) →
    ∀ (b : ℕ) (p : Pix4), (b, p) ∈ L → ∀ (c : ℕ), c < 4 →
    (writeAll L d).get? (b + c) = some (clampJS (pixGet p c)) := by
  induction L with
  | nil => intro _ _ _ _ _ _ hmem; cases hmem
  | cons e L ih =>
    intro d hnd h4 hlen b p hmem c hc
    rw [List.map_cons, List.nodup_cons] at hnd
    rcases List.mem_cons.mp hmem with he | hL
    · subst he
      rw [writeAll_cons]
      rw [writeAll_get_out L _ (b + c) ?_]
      · exact writePix_get_c d b p c hc (hlen _ (List.mem_cons_self _ _))
      · intro e' he'
        have hne : e'.1 ≠ b := by
          intro h
          have hmem2 : b ∈ L.map Prod.fst := by
            rw [← h]
            exact List.mem_map_of_mem Prod.fst he'
          exact hnd.1 hmem2
        have hd1 : 4 ∣ e'.1 := h4 e' (List.mem_cons_of_mem _ he')
        have hd2 : (4:ℕ) ∣ b := h4 (b, p) (List.mem_cons_self _ _)
        omega
    · rw [writeAll_cons]
      exact ih (writePix d (e.1 : ℤ) e.2) hnd.2 (fun e' h => h4 e' (List.mem_cons_of_mem _ h))
        (fun e' h => by rw [writePix_length]; exact hlen e' (List.mem_cons_of_mem _ h))
        b p hL c hc

lemma mem_loopPixels (w h x y : ℕ) : (x, y) ∈ loopPixels w h ↔ x < w ∧ y < h := by
  simp only [loopPixels, List.mem_flatMap, List.mem_map, List.mem_range, Prod.mk.injEq]
  constructor
  · rintro ⟨y', hy', x', hx', hx, hy⟩
    exact ⟨hx ▸ hx', hy ▸ hy'⟩
  · rintro ⟨hx, hy⟩
    exact ⟨y, hy, x, hx, rfl, rfl⟩

lemma nodup_loopPixels (w h : ℕ) : (loopPixels w h).Nodup := by
  unfold loopPixels
  rw [List.nodup_flatMap]
  refine ⟨fun y _ => ?_, ?_⟩
  · exact (List.nodup_range w).map (fun a b hab => by simpa using hab)
  · refine (List.nodup_range h).imp ?_
    intro a b hab p hp hq
    rcases List.mem_map.mp hp with ⟨x, _, rfl⟩
    rcases List.mem_map.mp hq with ⟨x2, _, hx2⟩
    exact hab (congrArg Prod.snd hx2).symm

lemma setPixelV_width (img : ImageData) (x y : ℤ) (p : Pix4) :
    (V1.setPixelV img x y p).width = img.width := by
  unfold V1.setPixelV V1.setPixel
  cases V1.convertCoordsToIndex img x y <;> rfl

lemma setPixelV_height (img : ImageData) (x y : ℤ) (p : Pix4) :
    (V1.setPixelV img x y p).height = img.height := by
  unfold V1.setPixelV V1.setPixel
  cases V1.convertCoordsToIndex img x y <;> rfl

lemma setPixelV_eq (img : ImageData) (x y : ℕ) (p : Pix4) (hx : x < img.width)
    (hy : y < img.height) :
    V1.setPixelV img (x : ℤ) (y : ℤ) p
      = { img with data := writePix img.data (((y * img.width + x) * 4 : ℕ) : ℤ) p } := by
  unfold V1.setPixelV V1.setPixel V1.convertCoordsToIndex
  rw [if_neg (by omega)]
  have hpos : (y : ℤ) * (img.width : ℤ) * 4 + (x : ℤ) * 4
      = (((y * img.width + x) * 4 : ℕ) : ℤ) := by
    push_cast
    ring
  rw [hpos]

lemma foldl_setPix_eq_writeAll (A : List ((ℕ × ℕ) × Pix4)) : ∀ (dst : ImageData),
    (∀ a ∈ A, a.1.1 < dst.width ∧ a.1.2 < dst.height) →
    A.foldl (fun d a => V1.setPixelV d (a.1.1 : ℤ) (a.1.2 : ℤ) a.2) dst
      = { dst with
          data := writeAll (A.map (fun a => ((a.1.2 * dst.width + a.1.1) * 4, a.2))) dst.data } := by
  induction A with
  | nil => intro dst _; rfl
  | cons a A ih =>
    intro dst hA
    have ha := hA a (List.mem_cons_self _ _)
    rw [List.foldl_cons, List.map_cons, writeAll_cons,
      setPixelV_eq dst a.1.1 a.1.2 a.2 ha.1 ha.2,
      ih { dst with data := writePix dst.data (((a.1.2 * dst.width + a.1.1) * 4 : ℕ) : ℤ) a.2 }
        (fun b hb => hA b (List.mem_cons_of_mem _ hb))]

lemma pixel_index_lt (w h x y : ℕ) (hx : x < w) (hy : y < h) : y * w + x < w * h := by
  calc y * w + x < y * w + w := by omega
    _ = (y + 1) * w := by ring
    _ ≤ h * w := Nat.mul_le_mul_right _ (by omega)
    _ = w * h := Nat.mul_comm _ _

lemma index_decompose (w h i : ℕ) (hi : i < 4 * w * h) :
    ∃ x y c, x < w ∧ y < h ∧ c < 4 ∧ i = (y * w + x) * 4 + c := by
  have hw : 0 < w := by
    rcases Nat.eq_zero_or_pos w with h0 | h0
    · subst h0; simp at hi
    · exact h0
  have hwh : 4 * w * h = 4 * (w * h) := by ring
  have hq : i / 4 < w * h := by omega
  refine ⟨(i / 4) % w, i / 4 / w, i % 4, Nat.mod_lt _ hw, ?_, by omega, ?_⟩
  · rw [Nat.div_lt_iff_lt_mul hw]
    calc i / 4 < w * h := hq
      _ = h * w := Nat.mul_comm _ _
  · have h1 : w * (i / 4 / w) + i / 4 % w = i / 4 := Nat.div_add_mod _ w
    have h2 : w * (i / 4 / w) = i / 4 / w * w := Nat.mul_comm _ _
    omega

lemma passWrites_nodup_fst (w h : ℕ) (tx : ℕ → ℕ) (f : ℕ → ℕ → Pix4)
    (htx : ∀ x, x < w → tx x < w)
    (hinj : ∀ x x2, x < w → x2 < w → tx x = tx x2 → x = x2) :
    ((passWrites w h tx f).map Prod.fst).Nodup := by
  unfold passWrites
  rw [List.map_map]
  apply (nodup_loopPixels w h).map_on
  intro a ha b hb hab
  simp only [Function.comp_apply] at hab
  have hax := (mem_loopPixels w h a.1 a.2).mp (by simpa using ha)
  have hbx := (mem_loopPixels w h b.1 b.2).mp (by simpa using hb)
  have hta := htx a.1 hax.1
  have htb := htx b.1 hbx.1
  have h1 : a.2 * w + tx a.1 = b.2 * w + tx b.1 := by omega
  have e1 : (tx a.1 + a.2 * w) % w = tx a.1 % w := Nat.add_mul_mod_self_right (tx a.1) a.2 w
  have e2 : (tx b.1 + b.2 * w) % w = tx b.1 % w := Nat.add_mul_mod_self_right (tx b.1) b.2 w
  have hx1 : tx a.1 % w = tx a.1 := Nat.mod_eq_of_lt hta
  have hx2 : tx b.1 % w = tx b.1 := Nat.mod_eq_of_lt htb
  have hs : tx a.1 + a.2 * w = tx b.1 + b.2 * w := by omega
  rw [hs] at e1
  have hfst : tx a.1 = tx b.1 := by omega
  have hw : 0 < w := by omega
  have hsnd : a.2 = b.2 := Nat.eq_of_mul_eq_mul_right hw (by omega)
  exact Prod.ext (hinj a.1 b.1 hax.1 hbx.1 hfst) hsnd

lemma passWrites_dvd (w h : ℕ) (tx : ℕ → ℕ) (f : ℕ → ℕ → Pix4) :
    ∀ e ∈ passWrites w h tx f, 4 ∣ e.1 := by
  intro e he
  rcases List.mem_map.mp he with ⟨xy, _, rfl⟩
  exact Dvd.intro_left _ rfl

lemma passWrites_len (w h : ℕ) (tx : ℕ → ℕ) (f : ℕ → ℕ → Pix4) (d : List ℕ)
    (hd : d.length = 4 * w * h) (htx : ∀ x, x < w → tx x < w) :
    ∀ e ∈ passWrites w h tx f, e.1 + 4 ≤ d.length := by
  intro e he
  rcases List.mem_map.mp he with ⟨xy, hxy, rfl⟩
  have hb := (mem_loopPixels w h xy.1 xy.2).mp hxy
  have hlt := pixel_index_lt w h (tx xy.1) xy.2 (htx xy.1 hb.1) hb.2
  have hwh : 4 * w * h = 4 * (w * h) := by ring
  omega

lemma writeAll_passWrites_get (w h : ℕ) (tx : ℕ → ℕ) (f : ℕ → ℕ → Pix4) (d : List ℕ)
    (hd : d.length = 4 * w * h)
    (htx : ∀ x, x < w → tx x < w)
    (hinj : ∀ x x2, x < w → x2 < w → tx x = tx x2 → x = x2)
    (x y c : ℕ) (hx : x < w) (hy : y < h) (hc : c < 4) :
    (writeAll (passWrites w h tx f) d).get? ((y * w + tx x) * 4 + c)
      = some (clampJS (pixGet (f x y) c)) := by
  apply writeAll_get_mem (passWrites w h tx f) d (passWrites_nodup_fst w h tx f htx hinj)
    (passWrites_dvd w h tx f) (passWrites_len w h tx f d hd htx)
  · exact List.mem_map_of_mem _ ((mem_loopPixels w h x y).mpr ⟨hx, hy⟩)
  · exact hc

lemma getPixelV_in (img : ImageData) (x y : ℕ) (hx : x < img.width) (hy : y < img.height) :
    V1.getPixelV img (x : ℤ) (y : ℤ) = some (readPix img x y) := by
  unfold V1.getPixelV V1.getPixel V1.convertCoordsToIndex readPix
  rw [if_neg (by omega)]
  have hpos : (y : ℤ) * (img.width : ℤ) * 4 + (x : ℤ) * 4
      = (((y * img.width + x) * 4 : ℕ) : ℤ) := by
    push_cast
    ring
  rw [hpos]

lemma blur1_one_eq (img : ImageData) :
    V1.blur img 1
      = ⟨img.width, img.height,
         writeAll (passWrites img.width img.height (fun x => x)
           (fun x y => V1.pixelValue img (x : ℤ) (y : ℤ)))
           (List.replicate (4 * img.width * img.height) 0)⟩ := by
  show V1.blurPass img (zeroImage img.width img.height) = _
  unfold V1.blurPass
  calc (loopPixels img.width img.height).foldl
        (fun d xy => V1.setPixelV d (xy.1 : ℤ) (xy.2 : ℤ)
          (V1.pixelValue img (xy.1 : ℤ) (xy.2 : ℤ)))
        (zeroImage img.width img.height)
      = ((loopPixels img.width img.height).map
          (fun xy => (xy, V1.pixelValue img (xy.1 : ℤ) (xy.2 : ℤ)))).foldl
          (fun d a => V1.setPixelV d (a.1.1 : ℤ) (a.1.2 : ℤ) a.2)
          (zeroImage img.width img.height) :=
        (List.foldl_map
          (fun xy : ℕ × ℕ => (xy, V1.pixelValue img (xy.1 : ℤ) (xy.2 : ℤ)))
          (fun d a => V1.setPixelV d (a.1.1 : ℤ) (a.1.2 : ℤ) a.2)
          (loopPixels img.width img.height) (zeroImage img.width img.height)).symm
    _ = _ := by
        rw [foldl_setPix_eq_writeAll _ _ (fun a ha => ?_)]
        · rw [List.map_map]
          rfl
        · rcases List.mem_map.mp ha with ⟨xy, hxy, rfl⟩
          have hb := (mem_loopPixels img.width img.height xy.1 xy.2).mp hxy
          exact ⟨hb.1, hb.2⟩

lemma pixByte_blur1 (img : ImageData) (x y ch : ℕ) (hx : x < img.width)
    (hy : y < img.height) (hch : ch < 4) :
    pixByte (V1.blur img 1) x y ch
      = some (clampJS (pixGet (V1.pixelValue img (x : ℤ) (y : ℤ)) ch)) := by
  rw [blur1_one_eq]
  unfold pixByte
  exact writeAll_passWrites_get img.width img.height (fun x => x) _ _ (by simp)
    (fun _ hx => hx) (fun _ _ _ _ e => e) x y ch hx hy hch

lemma flip_eq (img : ImageData) :
    V1.flipHorizontal img
      = ⟨img.width, img.height,
         writeAll (passWrites img.width img.height (fun x => img.width - 1 - x)
           (fun x y => readPix img x y))
           (List.replicate (4 * img.width * img.height) 0)⟩ := by
  unfold V1.flipHorizontal
  rw [List.foldl_ext _
    (fun d (xy : ℕ × ℕ) => V1.setPixelV d ((img.width - 1 - xy.1 : ℕ) : ℤ) (xy.2 : ℤ)
      (readPix img xy.1 xy.2))
    (zeroImage img.width img.height) ?_]
  · calc (loopPixels img.width img.height).foldl
          (fun d xy => V1.setPixelV d ((img.width - 1 - xy.1 : ℕ) : ℤ) (xy.2 : ℤ)
            (readPix img xy.1 xy.2))
          (zeroImage img.width img.height)
        = ((loopPixels img.width img.height).map
            (fun xy => ((img.width - 1 - xy.1, xy.2), readPix img xy.1 xy.2))).foldl
            (fun d a => V1.setPixelV d (a.1.1 : ℤ) (a.1.2 : ℤ) a.2)
            (zeroImage img.width img.height) :=
          (List.foldl_map
            (fun xy : ℕ × ℕ => ((img.width - 1 - xy.1, xy.2), readPix img xy.1 xy.2))
            (fun d a => V1.setPixelV d (a.1.1 : ℤ) (a.1.2 : ℤ) a.2)
            (loopPixels img.width img.height) (zeroImage img.width img.height)).symm
      _ = _ := by
          rw [foldl_setPix_eq_writeAll _ _ (fun a ha => ?_)]
          · rw [List.map_map]
            rfl
          · rcases List.mem_map.mp ha with ⟨xy, hxy, rfl⟩
            have hb := (mem_loopPixels img.width img.height xy.1 xy.2).mp hxy
            refine ⟨?_, ?_⟩
            · show img.width - 1 - xy.1 < img.width
              omega
            · show xy.2 < img.height
              exact hb.2
  · intro d xy hxy
    have hb := (mem_loopPixels img.width img.height xy.1 xy.2).mp hxy
    rw [getPixelV_in img xy.1 xy.2 hb.1 hb.2]
    have hco : -((xy.1 : ℤ) - (img.width : ℤ)) - 1 = ((img.width - 1 - xy.1 : ℕ) : ℤ) := by
      omega
    rw [hco]

lemma pixByte_flip (img : ImageData) (x y ch : ℕ) (hx : x < img.width)
    (hy : y < img.height) (hch : ch < 4) :
    pixByte (V1.flipHorizontal img) x y ch
      = some (clampJS (pixGet (readPix img (img.width - 1 - x) y) ch)) := by
  rw [flip_eq]
  unfold pixByte
  have hres := writeAll_passWrites_get img.width img.height (fun x => img.width - 1 - x)
    (fun x y => readPix img x y) (List.replicate (4 * img.width * img.height) 0) (by simp)
    (fun x2 hx2 => by show img.width - 1 - x2 < img.width; omega)
    (fun x2 x3 h2 h3 e => by
      have e2 : img.width - 1 - x2 = img.width - 1 - x3 := e
      omega)
    (img.width - 1 - x) y ch (by omega) hy hch
  have hres2 : (writeAll (passWrites img.width img.height (fun x => img.width - 1 - x)
        (fun x y => readPix img x y)) (List.replicate (4 * img.width * img.height) 0)).get?
      ((y * img.width + (img.width - 1 - (img.width - 1 - x))) * 4 + ch)
      = some (clampJS (pixGet (readPix img (img.width - 1 - x) y) ch)) := hres
  have htx : img.width - 1 - (img.width - 1 - x) = x := by omega
  rw [htx] at hres2
  exact hres2

lemma clampJS_byte (b : ℕ) (hb : b ≤ 255) : clampJS (JSNum.frac (b : ℤ) 1) = b := by
  simp only [clampJS, clampFrac, roundHalfEvenDiv, Int.toNat_natCast]
  split_ifs <;> first
    | omega
    | (exfalso; omega)
    | simp_all

lemma getD_le_all (l : List ℕ) (hb : ∀ v ∈ l, v ≤ 255) (i : ℕ) : l.getD i 0 ≤ 255 := by
  rcases Nat.lt_or_ge i l.length with h | h
  · rw [List.getD_eq_getElem l 0 h]
    exact hb _ (List.getElem_mem h)
  · rw [List.getD_eq_default l 0 h]
    omega

lemma readPix_get (img : ImageData) (x y ch : ℕ) (hch : ch < 4)
    (hidx : (y * img.width + x) * 4 + 3 < img.data.length) :
    pixGet (readPix img x y) ch
      = JSNum.frac ((img.data.getD ((y * img.width + x) * 4 + ch) 0 : ℕ) : ℤ) 1 := by
  rcases (by omega : ch = 0 ∨ ch = 1 ∨ ch = 2 ∨ ch = 3) with h | h | h | h <;> subst h
  · unfold readPix
    show jsRead img.data ((((y * img.width + x) * 4 : ℕ) : ℤ)) = _
    unfold jsRead
    rw [if_pos ⟨by omega, by omega⟩]
    have hto : ((((y * img.width + x) * 4 : ℕ) : ℤ)).toNat = (y * img.width + x) * 4 + 0 := by
      omega
    rw [hto]
  · unfold readPix
    show jsRead img.data ((((y * img.width + x) * 4 : ℕ) : ℤ) + 1) = _
    unfold jsRead
    rw [if_pos ⟨by omega, by omega⟩]
    have hto : ((((y * img.width + x) * 4 : ℕ) : ℤ) + 1).toNat = (y * img.width + x) * 4 + 1 := by
      omega
    rw [hto]
  · unfold readPix
    show jsRead img.data ((((y * img.width + x) * 4 : ℕ) : ℤ) + 2) = _
    unfold jsRead
    rw [if_pos ⟨by omega, by omega⟩]
    have hto : ((((y * img.width + x) * 4 : ℕ) : ℤ) + 2).toNat = (y * img.width + x) * 4 + 2 := by
      omega
    rw [hto]
  · unfold readPix
    show jsRead img.data ((((y * img.width + x) * 4 : ℕ) : ℤ) + 3) = _
    unfold jsRead
    rw [if_pos ⟨by omega, by omega⟩]
    have hto : ((((y * img.width + x) * 4 : ℕ) : ℤ) + 3).toNat = (y * img.width + x) * 4 + 3 := by
      omega
    rw [hto]

lemma flip_width (img : ImageData) : (V1.flipHorizontal img).width = img.width := by
  rw [flip_eq]

lemma flip_height (img : ImageData) : (V1.flipHorizontal img).height = img.height := by
  rw [flip_eq]

lemma flip_data_length (img : ImageData) :
    (V1.flipHorizontal img).data.length = 4 * img.width * img.height := by
  rw [flip_eq]
  show (writeAll _ _).length = _
  rw [writeAll_length]
  simp

lemma pixByte_flip_val (img : ImageData) (hwf : img.WF) (x y ch : ℕ) (hx : x < img.width)
    (hy : y < img.height) (hch : ch < 4) :
    pixByte (V1.flipHorizontal img) x y ch
      = some (img.data.getD ((y * img.width + (img.width - 1 - x)) * 4 + ch) 0) := by
  rw [pixByte_flip img x y ch hx hy hch]
  have hlt := pixel_index_lt img.width img.height (img.width - 1 - x) y (by omega) hy
  have hwh : 4 * img.width * img.height = 4 * (img.width * img.height) := by ring
  have hlen := hwf.1
  rw [readPix_get img (img.width - 1 - x) y ch hch (by omega)]
  rw [clampJS_byte _ (getD_le_all img.data hwf.2 _)]

lemma flip_WF (img : ImageData) (hwf : img.WF) : (V1.flipHorizontal img).WF := by
  refine ⟨by rw [flip_data_length, flip_width, flip_height], ?_⟩
  intro v hv
  rcases List.mem_iff_get?.mp hv with ⟨n, hn⟩
  have hlen : n < (V1.flipHorizontal img).data.length := (List.get?_eq_some.mp hn).1
  rw [flip_data_length] at hlen
  rcases index_decompose img.width img.height n hlen with ⟨x, y, c, hx, hy, hc, rfl⟩
  have hpb : pixByte (V1.flipHorizontal img) x y c
      = some (img.data.getD ((y * img.width + (img.width - 1 - x)) * 4 + c) 0) :=
    pixByte_flip_val img hwf x y c hx hy hc
  unfold pixByte at hpb
  rw [flip_width] at hpb
  rw [hpb] at hn
  have hv2 := Option.some.inj hn
  rw [← hv2]
  exact getD_le_all img.data hwf.2 _

lemma ImageData.eq_of_fields {a b : ImageData} (hw : a.width = b.width)
    (hh : a.height = b.height) (hd : a.data = b.data) : a = b := by
  cases a
  cases b
  simp_all

/-- C9: flipHorizontal is an involution: for every well-formed image,
applying flipHorizontal twice yields the original image data (one
application moves the pixel at `(x, y)` to `(width - 1 - x, y)`). -/
theorem flipHorizontal_involution (img : ImageData) (hwf : img.WF) :
    V1.flipHorizontal (V1.flipHorizontal img) = img := by
  have hW := flip_WF img hwf
  have hw1 : (V1.flipHorizontal img).width = img.width := flip_width img
  have hh1 : (V1.flipHorizontal img).height = img.height := flip_height img
  have hwh : 4 * img.width * img.height = 4 * (img.width * img.height) := by ring
  refine ImageData.eq_of_fields (by rw [flip_width, flip_width]) (by rw [flip_height, flip_height]) ?_
  apply List.ext_get?
  intro n
  rcases Nat.lt_or_ge n (4 * img.width * img.height) with hn | hn
  · rcases index_decompose img.width img.height n hn with ⟨x, y, c, hx, hy, hc, rfl⟩
    have h1 : pixByte (V1.flipHorizontal (V1.flipHorizontal img)) x y c
        = some ((V1.flipHorizontal img).data.getD
            ((y * (V1.flipHorizontal img).width
              + ((V1.flipHorizontal img).width - 1 - x)) * 4 + c) 0) :=
      pixByte_flip_val (V1.flipHorizontal img) hW x y c (by rw [hw1]; exact hx)
        (by rw [hh1]; exact hy) hc
    rw [hw1] at h1
    have h2 : pixByte (V1.flipHorizontal img) (img.width - 1 - x) y c
        = some (img.data.getD
            ((y * img.width + (img.width - 1 - (img.width - 1 - x))) * 4 + c) 0) :=
      pixByte_flip_val img hwf (img.width - 1 - x) y c (by omega) hy hc
    have hxx : img.width - 1 - (img.width - 1 - x) = x := by omega
    rw [hxx] at h2
    unfold pixByte at h1 h2
    rw [flip_width, hw1] at h1
    rw [hw1] at h2
    have hmid := pixel_index_lt img.width img.height (img.width - 1 - x) y (by omega) hy
    have hidx : (y * img.width + (img.width - 1 - x)) * 4 + c
        < (V1.flipHorizontal img).data.length := by
      rw [flip_data_length]
      omega
    have h3 : (V1.flipHorizontal img).data.get? ((y * img.width + (img.width - 1 - x)) * 4 + c)
        = some ((V1.flipHorizontal img).data.getD
            ((y * img.width + (img.width - 1 - x)) * 4 + c) 0) := by
      rw [List.getD_eq_getElem _ 0 hidx, List.get?_eq_getElem?, List.getElem?_eq_getElem hidx]
    have hidx2 : (y * img.width + x) * 4 + c < img.data.length := by
      have := pixel_index_lt img.width img.height x y hx hy
      rw [hwf.1]
      omega
    have h4 : img.data.get? ((y * img.width + x) * 4 + c)
        = some (img.data.getD ((y * img.width + x) * 4 + c) 0) := by
      rw [List.getD_eq_getElem _ 0 hidx2, List.get?_eq_getElem?, List.getElem?_eq_getElem hidx2]
    have h5 : (V1.flipHorizontal img).data.getD
        ((y * img.width + (img.width - 1 - x)) * 4 + c) 0
        = img.data.getD ((y * img.width + x) * 4 + c) 0 :=
      Option.some.inj (h3.symm.trans h2)
    rw [h1, h5, h4]
  · have hlen1 : (V1.flipHorizontal (V1.flipHorizontal img)).data.length ≤ n := by
      rw [flip_data_length, hw1, hh1]
      exact hn
    have hlen2 : img.data.length ≤ n := by
      rw [hwf.1]
      exact hn
    rw [List.get?_eq_none.mpr hlen1, List.get?_eq_none.mpr hlen2]

/-- C9 witness: the involution at a concrete 2 x 1 image. -/
theorem flipHorizontal_involution_witness :
    V1.flipHorizontal (V1.flipHorizontal ⟨2, 1, [1, 2, 3, 4, 10, 20, 30, 40]⟩)
      = ⟨2, 1, [1, 2, 3, 4, 10, 20, 30, 40]⟩ :=
  flipHorizontal_involution ⟨2, 1, [1, 2, 3, 4, 10, 20, 30, 40]⟩ (by decide)

/-- C5: for every in-range coordinate pair, `convertCoordsToIndex` returns
`(y * width + x) * 4`, the row-major byte index of the pixel. -/
theorem convertCoordsToIndex_rowMajor (img : ImageData) (x y : ℤ) (hx0 : 0 ≤ x)
    (hx : x < (img.width : ℤ)) (hy0 : 0 ≤ y) (hy : y < (img.height : ℤ)) :
    V1.convertCoordsToIndex img x y = Except.ok ((y * (img.width : ℤ) + x) * 4) := by
  unfold V1.convertCoordsToIndex
  rw [if_neg (by omega)]
  congr 1
  ring

/-- C5 witness: in a 100 x 100 image, `(34, 56)` maps to index 22536. -/
theorem convertCoordsToIndex_rowMajor_witness :
    V1.convertCoordsToIndex ⟨100, 100, []⟩ 34 56 = Except.ok 22536 :=
  (convertCoordsToIndex_rowMajor ⟨100, 100, []⟩ 34 56 (by decide) (by decide) (by decide)
    (by decide)).trans (by decide)

/-- C6: no call to `getPixel` or `setPixel` ever propagates an exception:
for every image, coordinate pair, and pixel value, both methods return
normally (the `CoordinateError` thrown by `convertCoordsToIndex` is caught
inside the method), so callers such as `blur` and `flipHorizontal` never
observe a thrown error. -/
theorem getPixel_setPixel_never_throw (img : ImageData) (x y : ℤ) (p : Pix4) :
    (∃ r, V1.getPixel img x y = Except.ok r) ∧ (∃ r, V1.setPixel img x y p = Except.ok r) := by
  constructor
  · unfold V1.getPixel
    rcases hc : V1.convertCoordsToIndex img x y with e | pos
    · exact ⟨none, rfl⟩
    · exact ⟨_, rfl⟩
  · unfold V1.setPixel
    rcases hc : V1.convertCoordsToIndex img x y with e | pos
    · exact ⟨img, rfl⟩
    · exact ⟨_, rfl⟩

/-- C7: blur is deterministic in both versions: equal widths, heights,
buffer contents and pass counts produce equal outputs. -/
theorem blur_deterministic (a b : ImageData) (p q : ℕ) (hw : a.width = b.width)
    (hh : a.height = b.height) (hd : a.data = b.data) (hp : p = q) :
    V1.blur a p = V1.blur b q ∧ V2.blur a p = V2.blur b q := by
  have hab : a = b := ImageData.eq_of_fields hw hh hd
  subst hab
  subst hp
  exact ⟨rfl, rfl⟩

/-- C7 witness: determinism at a concrete 1 x 1 image with one pass. -/
theorem blur_deterministic_witness :
    V1.blur ⟨1, 1, [10, 20, 30, 40]⟩ 1 = V1.blur ⟨1, 1, [10, 20, 30, 40]⟩ 1
    ∧ V2.blur ⟨1, 1, [10, 20, 30, 40]⟩ 1 = V2.blur ⟨1, 1, [10, 20, 30, 40]⟩ 1 :=
  blur_deterministic ⟨1, 1, [10, 20, 30, 40]⟩ ⟨1, 1, [10, 20, 30, 40]⟩ 1 1 rfl rfl rfl rfl

lemma foldl_preserves_settings {α : Type} (L : List α) (g : Ctx2D → α → Ctx2D)
    (hg : ∀ c z, (g c z).settings = c.settings) :
    ∀ c : Ctx2D, (L.foldl g c).settings = c.settings := by
  induction L with
  | nil => intro c; rfl
  | cons a L ih =>
    intro c
    rw [List.foldl_cons, ih, hg]

lemma iterate_preserves_settings (g : Ctx2D → Ctx2D)
    (hg : ∀ c, (g c).settings = c.settings) :
    ∀ (n : ℕ) (c : Ctx2D), (Nat.iterate g n c).settings = c.settings := by
  intro n
  induction n with
  | zero => intro c; rfl
  | succ n ih =>
    intro c
    show (Nat.iterate g n (g c)).settings = c.settings
    rw [ih, hg]

lemma v3Pass_settings : ∀ c : Ctx2D, (v3Pass c).settings = c.settings :=
  foldl_preserves_settings V3.offsets3 (fun c p => drawImage c p.1 p.2) (fun _ _ => rfl)

lemma v3Iterate_settings : ∀ (n : ℕ) (c : Ctx2D), (Nat.iterate v3Pass n c).settings = c.settings :=
  iterate_preserves_settings v3Pass v3Pass_settings

lemma V3_blur_settings (ctx : Ctx2D) (passes : ℤ) :
    (V3.blur ctx passes).settings = ctx.settings := by
  unfold V3.blur
  exact v3Iterate_settings passes.toNat { ctx with globalAlpha := 1 / 8 }

lemma v5Row_settings (s : ℤ) : ∀ (c : Ctx2D) (y : ℤ), (v5Row s c y).settings = c.settings :=
  fun c y => foldl_preserves_settings (V5.intRange (-s) s) (fun c x => drawImage c x y)
    (fun _ _ => rfl) c

lemma v5Fold_settings (s : ℤ) :
    ∀ c : Ctx2D, ((V5.intRange (-s) s).foldl (v5Row s) c).settings = c.settings :=
  foldl_preserves_settings (V5.intRange (-s) s) (v5Row s) (v5Row_settings s)

lemma V5_blur_settings (ctx : Ctx2D) (strength : ℤ) :
    (V5.blur ctx strength).settings = ctx.settings := by
  unfold V5.blur
  exact v5Fold_settings strength { ctx with globalAlpha := 1 / 2 }

/-- C10: after v3 and v5 `blur` return, `globalAlpha` is 1.0 for every
argument value: the reduced-opacity compositing setting is local to the
call, and no other context configuration is modified. -/
theorem blur_restores_globalAlpha (ctx : Ctx2D) (passes strength : ℤ) :
    ((V3.blur ctx passes).globalAlpha = 1 ∧ (V3.blur ctx passes).settings = ctx.settings)
    ∧ ((V5.blur ctx strength).globalAlpha = 1
        ∧ (V5.blur ctx strength).settings = ctx.settings) :=
  ⟨⟨rfl, V3_blur_settings ctx passes⟩, ⟨rfl, V5_blur_settings ctx strength⟩⟩

/-- C2, code evaluated at the failing input: on a 1 x 1 image,
`getPixel(1, 0)` has `x = width`, which the claim (and the method
documentation) says is out of range and must yield the sentinel `false`;
the off-by-one check `x > this.width` accepts it instead, and the method
returns a four-element array built from out-of-range reads. -/
theorem getPixel_at_width_returns_array :
    V1.getPixel ⟨1, 1, [10, 20, 30, 40]⟩ 1 0
      = Except.ok (some (JSNum.nan, JSNum.nan, JSNum.nan, JSNum.nan))
    ∧ V1.getPixel ⟨1, 1, [10, 20, 30, 40]⟩ 1 0 ≠ Except.ok none := by
  constructor
  · decide
  · decide

/-- C3, code evaluated at the failing input: blurring a 1 x 1 image
samples the surrounding coordinate `(0, 1)`, whose conversion passes the
boundary check (`y = height` is accepted) and yields byte index 4 in a
4-byte buffer, so `getPixel` performs reads at indices 4 … 7, all past
the end of the RGBA data array. -/
theorem blur_reads_past_buffer :
    ((0 : ℤ), (1 : ℤ)) ∈ V1.surroundingPixels 0 0
    ∧ V1.convertCoordsToIndex ⟨1, 1, [10, 20, 30, 40]⟩ 0 1 = Except.ok 4
    ∧ (⟨1, 1, [10, 20, 30, 40]⟩ : ImageData).data.length = 4
    ∧ V1.getPixelV ⟨1, 1, [10, 20, 30, 40]⟩ 0 1
        = some (JSNum.nan, JSNum.nan, JSNum.nan, JSNum.nan) := by
  refine ⟨by decide, by decide, by decide, by decide⟩

lemma totals_count_aux_v1 (img : ImageData) (L : List (ℤ × ℤ)) :
    ∀ acc : Pix4 × ℕ, (L.foldl (V1.totalsStep img) acc).2
      = acc.2 + L.countP (fun c => (V1.getPixelV img c.1 c.2).isSome) := by
  induction L with
  | nil => intro acc; simp
  | cons c L ih =>
    intro acc
    rw [List.foldl_cons, ih, List.countP_cons]
    unfold V1.totalsStep
    cases hg : V1.getPixelV img c.1 c.2
    · simp [hg]
    · simp [hg]
      omega

lemma totals_count_v1 (img : ImageData) (x y : ℤ) :
    (V1.totals img x y).2
      = (V1.surroundingPixels x y).countP (fun c => (V1.getPixelV img c.1 c.2).isSome) := by
  unfold V1.totals
  rw [totals_count_aux_v1]
  simp

lemma totals_count_aux_v2 (data : List ℕ) (len : ℤ) (L : List ℤ) :
    ∀ acc : Pix4 × ℕ, (L.foldl (V2.totalsStep data len) acc).2
      = acc.2 + L.countP (fun sp => decide (0 ≤ sp ∧ sp ≤ len - 3)) := by
  induction L with
  | nil => intro acc; simp
  | cons sp L ih =>
    intro acc
    rw [List.foldl_cons, ih, List.countP_cons]
    unfold V2.totalsStep
    by_cases hsp : 0 ≤ sp ∧ sp ≤ len - 3
    · rw [if_pos hsp]
      simp [hsp]
      omega
    · rw [if_neg hsp]
      simp [hsp]

lemma totals_count_v2 (data : List ℕ) (len w4 pos : ℤ) :
    (V2.totals data len w4 pos).2
      = (V2.surroundingPixels pos w4).countP (fun sp => decide (0 ≤ sp ∧ sp ≤ len - 3)) := by
  unfold V2.totals
  rw [totals_count_aux_v2]
  simp

lemma v1_count_pos (img : ImageData) (x y : ℕ) (hx : x < img.width) (hy : y < img.height) :
    1 ≤ (V1.totals img (x : ℤ) (y : ℤ)).2 := by
  rw [totals_count_v1]
  apply List.countP_pos_iff.mpr
  refine ⟨((x : ℤ) * 1, (y : ℤ)), by simp [V1.surroundingPixels], ?_⟩
  have hx1 : (x : ℤ) * 1 = (x : ℤ) := by ring
  rw [hx1]
  rw [getPixelV_in img x y hx hy]
  rfl

lemma v2_count_pos (img : ImageData) (k : ℕ) (hk : k < img.width * img.height)
    (hlen : img.data.length = 4 * img.width * img.height) :
    1 ≤ (V2.totals img.data (img.data.length : ℤ) ((img.width : ℤ) * 4) ((4 * k : ℕ) : ℤ)).2 := by
  rw [totals_count_v2]
  apply List.countP_pos_iff.mpr
  have hlenz : (img.data.length : ℤ) = 4 * (img.width : ℤ) * (img.height : ℤ) := by
    rw [hlen]
    push_cast
    ring
  have hkz : (k : ℤ) < (img.width : ℤ) * (img.height : ℤ) := by
    exact_mod_cast hk
  have hassoc : (4 : ℤ) * (img.width : ℤ) * (img.height : ℤ)
      = 4 * ((img.width : ℤ) * (img.height : ℤ)) := by ring
  rcases Nat.eq_zero_or_pos k with hk0 | hk1
  · rcases Nat.lt_or_ge (img.width * img.height) 2 with hwh | hwh
    · -- exactly one pixel: width = height = 1, the offset pos + w4 - 4 is 0
      have hwh1 : img.width * img.height = 1 := by omega
      have hw1 : img.width = 1 := Nat.eq_one_of_mul_eq_one_right hwh1
      refine ⟨((4 * k : ℕ) : ℤ) + (img.width : ℤ) * 4 - 4,
        by simp [V2.surroundingPixels], ?_⟩
      subst hk0
      rw [hw1]
      rw [decide_eq_true_eq]
      have hh1 : img.height = 1 := by
        rw [hw1] at hwh1
        omega
      rw [hlen, hw1, hh1]
      constructor <;> omega
    · -- at least two pixels: the offset pos + 4 is in range
      refine ⟨((4 * k : ℕ) : ℤ) + 4, by simp [V2.surroundingPixels], ?_⟩
      rw [decide_eq_true_eq]
      have hwhz : (2 : ℤ) ≤ (img.width : ℤ) * (img.height : ℤ) := by exact_mod_cast hwh
      subst hk0
      constructor
      · norm_num
      · rw [hlenz]
        omega
  · -- k ≥ 1: the offset pos - 4 is in range
    refine ⟨((4 * k : ℕ) : ℤ) - 4, by simp [V2.surroundingPixels], ?_⟩
    rw [decide_eq_true_eq]
    constructor
    · push_cast
      omega
    · rw [hlenz]
      push_cast
      omega

/-- C8: in the per-pixel averaging loop of blur, for every image with at
least one pixel and every pixel position, `numberOfPixels` is at least 1
when the averages are computed (v1 at coordinates `(x, y)`; v2 at buffer
offset `4 * k`), so the four channel divisions are never divisions by
zero. -/
theorem blur_sample_count_positive (img : ImageData) (x y k : ℕ)
    (hx : x < img.width) (hy : y < img.height) (hk : k < img.width * img.height)
    (hlen : img.data.length = 4 * img.width * img.height) :
    1 ≤ (V1.totals img (x : ℤ) (y : ℤ)).2
    ∧ 1 ≤ (V2.totals img.data (img.data.length : ℤ) ((img.width : ℤ) * 4)
        ((4 * k : ℕ) : ℤ)).2 :=
  ⟨v1_count_pos img x y hx hy, v2_count_pos img k hk hlen⟩

/-- C8 witness: sample counts at the only pixel of a concrete 1 x 1
image. -/
theorem blur_sample_count_positive_witness :
    1 ≤ (V1.totals ⟨1, 1, [10, 20, 30, 40]⟩ 0 0).2
    ∧ 1 ≤ (V2.totals [10, 20, 30, 40] 4 4 0).2 :=
  blur_sample_count_positive ⟨1, 1, [10, 20, 30, 40]⟩ 0 0 0 (by decide) (by decide)
    (by decide) (by decide)

lemma jsAdd_frac_one (a b : ℤ) :
    jsAdd (JSNum.frac a 1) (JSNum.frac b 1) = JSNum.frac (a + b) 1 := by
  simp [jsAdd]

lemma convertCoordsToIndex_ok (img : ImageData) (x y pos : ℤ)
    (h : V1.convertCoordsToIndex img x y = Except.ok pos) :
    pos = y * (img.width : ℤ) * 4 + x * 4
    ∧ 0 ≤ x ∧ x ≤ (img.width : ℤ) ∧ 0 ≤ y ∧ y ≤ (img.height : ℤ) := by
  unfold V1.convertCoordsToIndex at h
  by_cases hc : x < 0 ∨ x > (img.width : ℤ) ∨ y < 0 ∨ y > (img.height : ℤ)
  · rw [if_pos hc] at h
    exact (Except.noConfusion h)
  · rw [if_neg hc] at h
    have hpos := Except.ok.inj h
    exact ⟨hpos.symm, by omega, by omega, by omega, by omega⟩

lemma getPixelV_eq_some (img : ImageData) (x y : ℤ) (p : Pix4)
    (h : V1.getPixelV img x y = some p) :
    ∃ pos, V1.convertCoordsToIndex img x y = Except.ok pos
      ∧ p = (jsRead img.data pos, jsRead img.data (pos + 1), jsRead img.data (pos + 2),
             jsRead img.data (pos + 3)) := by
  unfold V1.getPixelV V1.getPixel at h
  rcases hc : V1.convertCoordsToIndex img x y with e | pos
  · rw [hc] at h
    exact absurd h (by simp)
  · rw [hc] at h
    exact ⟨pos, rfl, (Option.some.inj h).symm⟩

lemma totals_val_aux_v1 (img : ImageData) (g : ℤ × ℤ → ℕ → ℕ) : ∀ (L : List (ℤ × ℤ)),
    (∀ c ∈ L, ∀ p, V1.getPixelV img c.1 c.2 = some p →
      p = (JSNum.frac (g c 0) 1, JSNum.frac (g c 1) 1, JSNum.frac (g c 2) 1,
           JSNum.frac (g c 3) 1)) →
    ∀ (a0 a1 a2 a3 : ℤ) (n : ℕ),
      L.foldl (V1.totalsStep img)
        ((JSNum.frac a0 1, JSNum.frac a1 1, JSNum.frac a2 1, JSNum.frac a3 1), n)
      = ((JSNum.frac (a0 + (((L.filter (fun c => (V1.getPixelV img c.1 c.2).isSome)).map
            (fun c => g c 0)).sum : ℕ)) 1,
          JSNum.frac (a1 + (((L.filter (fun c => (V1.getPixelV img c.1 c.2).isSome)).map
            (fun c => g c 1)).sum : ℕ)) 1,
          JSNum.frac (a2 + (((L.filter (fun c => (V1.getPixelV img c.1 c.2).isSome)).map
            (fun c => g c 2)).sum : ℕ)) 1,
          JSNum.frac (a3 + (((L.filter (fun c => (V1.getPixelV img c.1 c.2).isSome)).map
            (fun c => g c 3)).sum : ℕ)) 1),
         n + L.countP (fun c => (V1.getPixelV img c.1 c.2).isSome)) := by
  intro L
  induction L with
  | nil =>
    intro _ a0 a1 a2 a3 n
    simp
  | cons c L ih =>
    intro hv a0 a1 a2 a3 n
    have hvL := fun c2 h2 => hv c2 (List.mem_cons_of_mem _ h2)
    rw [List.foldl_cons]
    cases hg : V1.getPixelV img c.1 c.2 with
    | none =>
      have hstep : V1.totalsStep img
          ((JSNum.frac a0 1, JSNum.frac a1 1, JSNum.frac a2 1, JSNum.frac a3 1), n) c
          = ((JSNum.frac a0 1, JSNum.frac a1 1, JSNum.frac a2 1, JSNum.frac a3 1), n) := by
        unfold V1.totalsStep
        rw [hg]
      rw [hstep, ih hvL a0 a1 a2 a3 n,
        List.filter_cons_of_neg (by simp [hg]), List.countP_cons]
      simp [hg]
    | some p =>
      have hp := hv c (List.mem_cons_self _ _) p hg
      have hstep : V1.totalsStep img
          ((JSNum.frac a0 1, JSNum.frac a1 1, JSNum.frac a2 1, JSNum.frac a3 1), n) c
          = ((JSNum.frac (a0 + (g c 0 : ℤ)) 1, JSNum.frac (a1 + (g c 1 : ℤ)) 1,
              JSNum.frac (a2 + (g c 2 : ℤ)) 1, JSNum.frac (a3 + (g c 3 : ℤ)) 1), n + 1) := by
        unfold V1.totalsStep
        rw [hg, hp]
        simp only [jsAdd_frac_one]
      rw [hstep, ih hvL _ _ _ _ _,
        List.filter_cons_of_pos (by simp [hg]), List.countP_cons]
      simp only [List.map_cons, List.sum_cons, Prod.mk.injEq]
      refine ⟨⟨?_, ?_, ?_, ?_⟩, ?_⟩
      · congr 1
        push_cast
        ring
      · congr 1
        push_cast
        ring
      · congr 1
        push_cast
        ring
      · congr 1
        push_cast
        ring
      · simp [hg]
        omega

lemma totals_val_aux_v2 (data : List ℕ) (len : ℤ) (g : ℤ → ℕ → ℕ) : ∀ (L : List ℤ),
    (∀ sp ∈ L, (0 ≤ sp ∧ sp ≤ len - 3) →
      jsRead data sp = JSNum.frac (g sp 0) 1
      ∧ jsRead data (sp + 1) = JSNum.frac (g sp 1) 1
      ∧ jsRead data (sp + 2) = JSNum.frac (g sp 2) 1
      ∧ jsRead data (sp + 3) = JSNum.frac (g sp 3) 1) →
    ∀ (a0 a1 a2 a3 : ℤ) (n : ℕ),
      L.foldl (V2.totalsStep data len)
        ((JSNum.frac a0 1, JSNum.frac a1 1, JSNum.frac a2 1, JSNum.frac a3 1), n)
      = ((JSNum.frac (a0 + (((L.filter (fun sp => decide (0 ≤ sp ∧ sp ≤ len - 3))).map
            (fun sp => g sp 0)).sum : ℕ)) 1,
          JSNum.frac (a1 + (((L.filter (fun sp => decide (0 ≤ sp ∧ sp ≤ len - 3))).map
            (fun sp => g sp 1)).sum : ℕ)) 1,
          JSNum.frac (a2 + (((L.filter (fun sp => decide (0 ≤ sp ∧ sp ≤ len - 3))).map
            (fun sp => g sp 2)).sum : ℕ)) 1,
          JSNum.frac (a3 + (((L.filter (fun sp => decide (0 ≤ sp ∧ sp ≤ len - 3))).map
            (fun sp => g sp 3)).sum : ℕ)) 1),
         n + L.countP (fun sp => decide (0 ≤ sp ∧ sp ≤ len - 3))) := by
  intro L
  induction L with
  | nil =>
    intro _ a0 a1 a2 a3 n
    simp
  | cons sp L ih =>
    intro hv a0 a1 a2 a3 n
    have hvL := fun sp2 h2 => hv sp2 (List.mem_cons_of_mem _ h2)
    rw [List.foldl_cons]
    by_cases hc : 0 ≤ sp ∧ sp ≤ len - 3
    · have hr := hv sp (List.mem_cons_self _ _) hc
      have hstep : V2.totalsStep data len
          ((JSNum.frac a0 1, JSNum.frac a1 1, JSNum.frac a2 1, JSNum.frac a3 1), n) sp
          = ((JSNum.frac (a0 + (g sp 0 : ℤ)) 1, JSNum.frac (a1 + (g sp 1 : ℤ)) 1,
              JSNum.frac (a2 + (g sp 2 : ℤ)) 1, JSNum.frac (a3 + (g sp 3 : ℤ)) 1), n + 1) := by
        unfold V2.totalsStep
        rw [if_pos hc, hr.1, hr.2.1, hr.2.2.1, hr.2.2.2]
        simp only [jsAdd_frac_one]
      rw [hstep, ih hvL _ _ _ _ _,
        List.filter_cons_of_pos (by simp [hc]), List.countP_cons]
      simp only [List.map_cons, List.sum_cons, Prod.mk.injEq]
      refine ⟨⟨?_, ?_, ?_, ?_⟩, ?_⟩
      · congr 1
        push_cast
        ring
      · congr 1
        push_cast
        ring
      · congr 1
        push_cast
        ring
      · congr 1
        push_cast
        ring
      · simp [hc]
        omega
    · have hstep : V2.totalsStep data len
          ((JSNum.frac a0 1, JSNum.frac a1 1, JSNum.frac a2 1, JSNum.frac a3 1), n) sp
          = ((JSNum.frac a0 1, JSNum.frac a1 1, JSNum.frac a2 1, JSNum.frac a3 1), n) := by
        unfold V2.totalsStep
        rw [if_neg hc]
      rw [hstep, ih hvL a0 a1 a2 a3 n,
        List.filter_cons_of_neg (by simp [hc]), List.countP_cons]
      simp [hc]

lemma getPixelV_shape (img : ImageData) (x y : ℕ) (hx : x < img.width) (hy : y < img.height)
    (hIn : ∀ c ∈ V1.surroundingPixels (x : ℤ) (y : ℤ),
      (V1.getPixelV img c.1 c.2).isSome →
      c.2 * (img.width : ℤ) * 4 + c.1 * 4 + 4 ≤ (img.data.length : ℤ)) :
    ∀ c ∈ V1.surroundingPixels (x : ℤ) (y : ℤ), ∀ p, V1.getPixelV img c.1 c.2 = some p →
      p = (JSNum.frac (V1.sampleByte img c 0) 1, JSNum.frac (V1.sampleByte img c 1) 1,
           JSNum.frac (V1.sampleByte img c 2) 1, JSNum.frac (V1.sampleByte img c 3) 1) := by
  intro c hc p hp
  obtain ⟨pos, hconv, hval⟩ := getPixelV_eq_some img c.1 c.2 p hp
  obtain ⟨hposeq, hcx0, hcxw, hcy0, hcyh⟩ := convertCoordsToIndex_ok img c.1 c.2 pos hconv
  have hb := hIn c hc (by rw [hp]; rfl)
  subst hposeq
  have hmn : 0 ≤ c.2 * (img.width : ℤ) := mul_nonneg hcy0 (by positivity)
  rw [hval]
  unfold jsRead V1.sampleByte
  rw [if_pos ⟨by omega, by omega⟩, if_pos ⟨by omega, by omega⟩,
    if_pos ⟨by omega, by omega⟩, if_pos ⟨by omega, by omega⟩]
  have h0 : (c.2 * (img.width : ℤ) * 4 + c.1 * 4).toNat
      = (c.2 * (img.width : ℤ) * 4 + c.1 * 4).toNat + 0 := by omega
  have h1 : (c.2 * (img.width : ℤ) * 4 + c.1 * 4 + 1).toNat
      = (c.2 * (img.width : ℤ) * 4 + c.1 * 4).toNat + 1 := by omega
  have h2 : (c.2 * (img.width : ℤ) * 4 + c.1 * 4 + 2).toNat
      = (c.2 * (img.width : ℤ) * 4 + c.1 * 4).toNat + 2 := by omega
  have h3 : (c.2 * (img.width : ℤ) * 4 + c.1 * 4 + 3).toNat
      = (c.2 * (img.width : ℤ) * 4 + c.1 * 4).toNat + 3 := by omega
  rw [h1, h2, h3]
  rw [← h0]

lemma pixelValue_v1_toVal (img : ImageData) (x y ch : ℕ)
    (hx : x < img.width) (hy : y < img.height) (hch : ch < 4)
    (hIn : ∀ c ∈ V1.surroundingPixels (x : ℤ) (y : ℤ),
      (V1.getPixelV img c.1 c.2).isSome →
      c.2 * (img.width : ℤ) * 4 + c.1 * 4 + 4 ≤ (img.data.length : ℤ)) :
    JSNum.toVal (pixGet (V1.pixelValue img (x : ℤ) (y : ℤ)) ch)
      = some ((((V1.sampled img (x : ℤ) (y : ℤ)).map
            (fun c => V1.sampleByte img c ch)).sum : ℚ)
          / ((V1.sampled img (x : ℤ) (y : ℤ)).length : ℚ)) := by
  have hv := getPixelV_shape img x y hx hy hIn
  have htot := totals_val_aux_v1 img (fun c j => V1.sampleByte img c j)
    (V1.surroundingPixels (x : ℤ) (y : ℤ)) hv 0 0 0 0 0
  have htot2 : V1.totals img (x : ℤ) (y : ℤ)
      = ((JSNum.frac (((V1.sampled img (x : ℤ) (y : ℤ)).map
            (fun c => V1.sampleByte img c 0)).sum : ℕ) 1,
          JSNum.frac (((V1.sampled img (x : ℤ) (y : ℤ)).map
            (fun c => V1.sampleByte img c 1)).sum : ℕ) 1,
          JSNum.frac (((V1.sampled img (x : ℤ) (y : ℤ)).map
            (fun c => V1.sampleByte img c 2)).sum : ℕ) 1,
          JSNum.frac (((V1.sampled img (x : ℤ) (y : ℤ)).map
            (fun c => V1.sampleByte img c 3)).sum : ℕ) 1),
         (V1.sampled img (x : ℤ) (y : ℤ)).length) := by
    unfold V1.totals
    rw [htot]
    unfold V1.sampled
    rw [List.countP_eq_length_filter]
    simp only [zero_add]
  have hcnt : 1 ≤ (V1.sampled img (x : ℤ) (y : ℤ)).length := by
    have := v1_count_pos img x y hx hy
    rw [htot2] at this
    exact this
  rcases (by omega : ch = 0 ∨ ch = 1 ∨ ch = 2 ∨ ch = 3) with h | h | h | h <;> subst h <;>
    · unfold V1.pixelValue
      rw [htot2]
      show JSNum.toVal (jsDivNat (JSNum.frac _ 1) _) = _
      simp only [jsDivNat]
      rw [if_neg (by omega), one_mul]
      simp only [JSNum.toVal]
      rw [if_neg (by omega)]
      rw [Int.cast_natCast]

lemma jsRead_shape_v2 (img : ImageData) (k : ℕ)
    (hlen : img.data.length = 4 * img.width * img.height) :
    ∀ sp ∈ V2.surroundingPixels ((4 * k : ℕ) : ℤ) ((img.width : ℤ) * 4),
      (0 ≤ sp ∧ sp ≤ (img.data.length : ℤ) - 3) →
      jsRead img.data sp = JSNum.frac (V2.sampleByte img.data sp 0) 1
      ∧ jsRead img.data (sp + 1) = JSNum.frac (V2.sampleByte img.data sp 1) 1
      ∧ jsRead img.data (sp + 2) = JSNum.frac (V2.sampleByte img.data sp 2) 1
      ∧ jsRead img.data (sp + 3) = JSNum.frac (V2.sampleByte img.data sp 3) 1 := by
  intro sp hsp hc
  have hlz : (img.data.length : ℤ) = 4 * ((img.width * img.height : ℕ) : ℤ) := by
    rw [hlen]
    push_cast
    ring
  have h4 : (4 : ℤ) ∣ sp := by
    simp only [V2.surroundingPixels, List.mem_cons, List.not_mem_nil, or_false] at hsp
    rcases hsp with rfl | rfl | rfl | rfl | rfl | rfl | rfl | rfl <;> omega
  have h4len : (4 : ℤ) ∣ (img.data.length : ℤ) := by
    rw [hlz]
    exact ⟨_, rfl⟩
  have hlt : sp + 3 < (img.data.length : ℤ) := by omega
  unfold jsRead V2.sampleByte
  rw [if_pos ⟨by omega, by omega⟩, if_pos ⟨by omega, by omega⟩,
    if_pos ⟨by omega, by omega⟩, if_pos ⟨by omega, by omega⟩]
  have h1 : (sp + 1).toNat = sp.toNat + 1 := by omega
  have h2 : (sp + 2).toNat = sp.toNat + 2 := by omega
  have h3 : (sp + 3).toNat = sp.toNat + 3 := by omega
  have h0 : sp.toNat = sp.toNat + 0 := by omega
  rw [h1, h2, h3]
  exact ⟨by rw [← h0], rfl, rfl, rfl⟩

lemma pixelValue_v2_toVal (img : ImageData) (k ch : ℕ) (hch : ch < 4)
    (hk : k < img.width * img.height)
    (hlen : img.data.length = 4 * img.width * img.height) :
    JSNum.toVal (pixGet (V2.pixelValue img.data (img.data.length : ℤ)
        ((img.width : ℤ) * 4) ((4 * k : ℕ) : ℤ)) ch)
      = some ((((V2.sampled (img.data.length : ℤ) ((img.width : ℤ) * 4)
            ((4 * k : ℕ) : ℤ)).map (fun sp => V2.sampleByte img.data sp ch)).sum : ℚ)
          / ((V2.sampled (img.data.length : ℤ) ((img.width : ℤ) * 4)
            ((4 * k : ℕ) : ℤ)).length : ℚ)) := by
  have hv := jsRead_shape_v2 img k hlen
  have htot := totals_val_aux_v2 img.data (img.data.length : ℤ)
    (fun sp j => V2.sampleByte img.data sp j)
    (V2.surroundingPixels ((4 * k : ℕ) : ℤ) ((img.width : ℤ) * 4)) hv 0 0 0 0 0
  have htot2 : V2.totals img.data (img.data.length : ℤ) ((img.width : ℤ) * 4) ((4 * k : ℕ) : ℤ)
      = ((JSNum.frac (((V2.sampled (img.data.length : ℤ) ((img.width : ℤ) * 4)
            ((4 * k : ℕ) : ℤ)).map (fun sp => V2.sampleByte img.data sp 0)).sum : ℕ) 1,
          JSNum.frac (((V2.sampled (img.data.length : ℤ) ((img.width : ℤ) * 4)
            ((4 * k : ℕ) : ℤ)).map (fun sp => V2.sampleByte img.data sp 1)).sum : ℕ) 1,
          JSNum.frac (((V2.sampled (img.data.length : ℤ) ((img.width : ℤ) * 4)
            ((4 * k : ℕ) : ℤ)).map (fun sp => V2.sampleByte img.data sp 2)).sum : ℕ) 1,
          JSNum.frac (((V2.sampled (img.data.length : ℤ) ((img.width : ℤ) * 4)
            ((4 * k : ℕ) : ℤ)).map (fun sp => V2.sampleByte img.data sp 3)).sum : ℕ) 1),
         (V2.sampled (img.data.length : ℤ) ((img.width : ℤ) * 4) ((4 * k : ℕ) : ℤ)).length) := by
    unfold V2.totals
    rw [htot]
    unfold V2.sampled
    rw [List.countP_eq_length_filter]
    simp only [zero_add]
  have hcnt : 1 ≤ (V2.sampled (img.data.length : ℤ) ((img.width : ℤ) * 4)
      ((4 * k : ℕ) : ℤ)).length := by
    have := v2_count_pos img k hk hlen
    rw [htot2] at this
    exact this
  rcases (by omega : ch = 0 ∨ ch = 1 ∨ ch = 2 ∨ ch = 3) with h | h | h | h <;> subst h <;>
    · unfold V2.pixelValue
      rw [htot2]
      show JSNum.toVal (jsDivNat (JSNum.frac _ 1) _) = _
      simp only [jsDivNat]
      rw [if_neg (by omega), one_mul]
      simp only [JSNum.toVal]
      rw [if_neg (by omega)]
      rw [Int.cast_natCast]

/-- C4 counterexample: at the per-pixel step for `(0, 0)` of a 2 x 1
image, v1 samples three positions that pass the boundary check, two of
which lie past the buffer; the computed channel value is NaN — not the
sum of sampled channel values divided by the sample count, nor any
rational at all. -/
theorem pixelValue_nan_counterexample :
    (V1.pixelValue ⟨2, 1, [8, 8, 8, 8, 16, 16, 16, 16]⟩ 0 0).1 = JSNum.nan
    ∧ JSNum.toVal (V1.pixelValue ⟨2, 1, [8, 8, 8, 8, 16, 16, 16, 16]⟩ 0 0).1 = none
    ∧ (V1.sampled ⟨2, 1, [8, 8, 8, 8, 16, 16, 16, 16]⟩ 0 0).length = 3
    ∧ ¬ ∃ q : ℚ, JSNum.toVal (V1.pixelValue ⟨2, 1, [8, 8, 8, 8, 16, 16, 16, 16]⟩ 0 0).1
        = some q := by
  have hnone : JSNum.toVal (V1.pixelValue ⟨2, 1, [8, 8, 8, 8, 16, 16, 16, 16]⟩ 0 0).1
      = none := by decide
  refine ⟨by decide, hnone, by decide, ?_⟩
  rintro ⟨q, hq⟩
  rw [hnone] at hq
  exact Option.noConfusion hq

/-- C4 amended: in every per-pixel step of blur, each channel of the
computed `pixelValue` equals — as an exact rational identity — the sum of
that channel over the positions that were actually sampled (those passing
the boundary check) divided by the count of sampled positions, PROVIDED
every sampled position reads inside the buffer.  This always holds in
version 2; in version 1 it requires the extra hypothesis, which fails at
pixels whose check-passing positions reach past the buffer (bottom row,
and the pixel column before the right edge on the second-to-last row),
where the computed value is NaN instead. -/
theorem pixelValue_exact_average (img : ImageData) (x y k ch : ℕ)
    (hx : x < img.width) (hy : y < img.height) (hch : ch < 4)
    (hk : k < img.width * img.height)
    (hlen : img.data.length = 4 * img.width * img.height)
    (hIn : ∀ c ∈ V1.surroundingPixels (x : ℤ) (y : ℤ),
      (V1.getPixelV img c.1 c.2).isSome →
      c.2 * (img.width : ℤ) * 4 + c.1 * 4 + 4 ≤ (img.data.length : ℤ)) :
    JSNum.toVal (pixGet (V1.pixelValue img (x : ℤ) (y : ℤ)) ch)
      = some ((((V1.sampled img (x : ℤ) (y : ℤ)).map
            (fun c => V1.sampleByte img c ch)).sum : ℚ)
          / ((V1.sampled img (x : ℤ) (y : ℤ)).length : ℚ))
    ∧ JSNum.toVal (pixGet (V2.pixelValue img.data (img.data.length : ℤ)
        ((img.width : ℤ) * 4) ((4 * k : ℕ) : ℤ)) ch)
      = some ((((V2.sampled (img.data.length : ℤ) ((img.width : ℤ) * 4)
            ((4 * k : ℕ) : ℤ)).map (fun sp => V2.sampleByte img.data sp ch)).sum : ℚ)
          / ((V2.sampled (img.data.length : ℤ) ((img.width : ℤ) * 4)
            ((4 * k : ℕ) : ℤ)).length : ℚ)) :=
  ⟨pixelValue_v1_toVal img x y ch hx hy hch hIn,
   pixelValue_v2_toVal img k ch hch hk hlen⟩

/-- C4 witness: the averaging identity at the centre pixel of a concrete
3 x 3 image. -/
theorem pixelValue_exact_average_witness :
    JSNum.toVal (pixGet (V1.pixelValue
        ⟨3, 3, [0, 0, 0, 0, 0, 0, 0, 0, 0, 0, 0, 0,
                0, 0, 0, 0, 90, 90, 90, 90, 0, 0, 0, 0,
                0, 0, 0, 0, 0, 0, 0, 0, 0, 0, 0, 0]⟩ 1 1) 0)
      = some ((((V1.sampled
            ⟨3, 3, [0, 0, 0, 0, 0, 0, 0, 0, 0, 0, 0, 0,
                    0, 0, 0, 0, 90, 90, 90, 90, 0, 0, 0, 0,
                    0, 0, 0, 0, 0, 0, 0, 0, 0, 0, 0, 0]⟩ 1 1).map
            (fun c => V1.sampleByte
              ⟨3, 3, [0, 0, 0, 0, 0, 0, 0, 0, 0, 0, 0, 0,
                      0, 0, 0, 0, 90, 90, 90, 90, 0, 0, 0, 0,
                      0, 0, 0, 0, 0, 0, 0, 0, 0, 0, 0, 0]⟩ c 0)).sum : ℚ)
          / ((V1.sampled
            ⟨3, 3, [0, 0, 0, 0, 0, 0, 0, 0, 0, 0, 0, 0,
                    0, 0, 0, 0, 90, 90, 90, 90, 0, 0, 0, 0,
                    0, 0, 0, 0, 0, 0, 0, 0, 0, 0, 0, 0]⟩ 1 1).length : ℚ))
    ∧ JSNum.toVal (pixGet (V2.pixelValue
        [0, 0, 0, 0, 0, 0, 0, 0, 0, 0, 0, 0,
         0, 0, 0, 0, 90, 90, 90, 90, 0, 0, 0, 0,
         0, 0, 0, 0, 0, 0, 0, 0, 0, 0, 0, 0] 36 12 16) 0)
      = some ((((V2.sampled 36 12 16).map (fun sp => V2.sampleByte
            [0, 0, 0, 0, 0, 0, 0, 0, 0, 0, 0, 0,
             0, 0, 0, 0, 90, 90, 90, 90, 0, 0, 0, 0,
             0, 0, 0, 0, 0, 0, 0, 0, 0, 0, 0, 0] sp 0)).sum : ℚ)
          / ((V2.sampled 36 12 16).length : ℚ)) :=
  pixelValue_exact_average
    ⟨3, 3, [0, 0, 0, 0, 0, 0, 0, 0, 0, 0, 0, 0,
            0, 0, 0, 0, 90, 90, 90, 90, 0, 0, 0, 0,
            0, 0, 0, 0, 0, 0, 0, 0, 0, 0, 0, 0]⟩ 1 1 4 0
    (by decide) (by decide) (by decide) (by decide) (by decide) (by decide)

lemma getPixelV_isSome_of (img : ImageData) (a b : ℤ)
    (h : ¬(a < 0 ∨ a > (img.width : ℤ) ∨ b < 0 ∨ b > (img.height : ℤ))) :
    (V1.getPixelV img a b).isSome = true := by
  unfold V1.getPixelV V1.getPixel V1.convertCoordsToIndex
  rw [if_neg h]
  rfl

lemma sampled_v1_interior (img : ImageData) (x y : ℕ) (hx1 : 1 ≤ x) (hx2 : x + 1 < img.width)
    (hy1 : 1 ≤ y) (hy2 : y + 1 < img.height) :
    V1.sampled img (x : ℤ) (y : ℤ) = V1.surroundingPixels (x : ℤ) (y : ℤ) := by
  unfold V1.sampled
  apply List.filter_eq_self.mpr
  intro c hc
  simp only [V1.surroundingPixels, List.mem_cons, List.not_mem_nil, or_false] at hc
  rcases hc with rfl | rfl | rfl | rfl | rfl | rfl | rfl | rfl <;>
    exact getPixelV_isSome_of img _ _ (by omega)

lemma sampled_v1_length_pos (img : ImageData) (x y : ℕ) (hx : x < img.width)
    (hy : y < img.height) : 1 ≤ (V1.sampled img (x : ℤ) (y : ℤ)).length := by
  have h := v1_count_pos img x y hx hy
  rw [totals_count_v1, List.countP_eq_length_filter] at h
  exact h

lemma sampled_v2_length_pos (img : ImageData) (k : ℕ) (hk : k < img.width * img.height)
    (hlen : img.data.length = 4 * img.width * img.height) :
    1 ≤ (V2.sampled (img.data.length : ℤ) ((img.width : ℤ) * 4) ((4 * k : ℕ) : ℤ)).length := by
  have h := v2_count_pos img k hk hlen
  rw [totals_count_v2, List.countP_eq_length_filter] at h
  exact h

lemma pixelValue_v1_frac (img : ImageData) (x y ch : ℕ)
    (hx : x < img.width) (hy : y < img.height) (hch : ch < 4)
    (hIn : ∀ c ∈ V1.surroundingPixels (x : ℤ) (y : ℤ),
      (V1.getPixelV img c.1 c.2).isSome →
      c.2 * (img.width : ℤ) * 4 + c.1 * 4 + 4 ≤ (img.data.length : ℤ)) :
    pixGet (V1.pixelValue img (x : ℤ) (y : ℤ)) ch
      = JSNum.frac (((V1.sampled img (x : ℤ) (y : ℤ)).map
            (fun c => V1.sampleByte img c ch)).sum : ℕ)
          (V1.sampled img (x : ℤ) (y : ℤ)).length := by
  have hv := getPixelV_shape img x y hx hy hIn
  have htot := totals_val_aux_v1 img (fun c j => V1.sampleByte img c j)
    (V1.surroundingPixels (x : ℤ) (y : ℤ)) hv 0 0 0 0 0
  have htot2 : V1.totals img (x : ℤ) (y : ℤ)
      = ((JSNum.frac (((V1.sampled img (x : ℤ) (y : ℤ)).map
            (fun c => V1.sampleByte img c 0)).sum : ℕ) 1,
          JSNum.frac (((V1.sampled img (x : ℤ) (y : ℤ)).map
            (fun c => V1.sampleByte img c 1)).sum : ℕ) 1,
          JSNum.frac (((V1.sampled img (x : ℤ) (y : ℤ)).map
            (fun c => V1.sampleByte img c 2)).sum : ℕ) 1,
          JSNum.frac (((V1.sampled img (x : ℤ) (y : ℤ)).map
            (fun c => V1.sampleByte img c 3)).sum : ℕ) 1),
         (V1.sampled img (x : ℤ) (y : ℤ)).length) := by
    unfold V1.totals
    rw [htot]
    unfold V1.sampled
    rw [List.countP_eq_length_filter]
    simp only [zero_add]
  have hcnt := sampled_v1_length_pos img x y hx hy
  rcases (by omega : ch = 0 ∨ ch = 1 ∨ ch = 2 ∨ ch = 3) with h | h | h | h <;> subst h <;>
    · unfold V1.pixelValue
      rw [htot2]
      show jsDivNat (JSNum.frac _ 1) _ = _
      simp only [jsDivNat]
      rw [if_neg (by omega), one_mul]

lemma pixelValue_v2_frac (img : ImageData) (k ch : ℕ) (hch : ch < 4)
    (hk : k < img.width * img.height)
    (hlen : img.data.length = 4 * img.width * img.height) :
    pixGet (V2.pixelValue img.data (img.data.length : ℤ) ((img.width : ℤ) * 4)
        ((4 * k : ℕ) : ℤ)) ch
      = JSNum.frac (((V2.sampled (img.data.length : ℤ) ((img.width : ℤ) * 4)
            ((4 * k : ℕ) : ℤ)).map (fun sp => V2.sampleByte img.data sp ch)).sum : ℕ)
          (V2.sampled (img.data.length : ℤ) ((img.width : ℤ) * 4) ((4 * k : ℕ) : ℤ)).length := by
  have hv := jsRead_shape_v2 img k hlen
  have htot := totals_val_aux_v2 img.data (img.data.length : ℤ)
    (fun sp j => V2.sampleByte img.data sp j)
    (V2.surroundingPixels ((4 * k : ℕ) : ℤ) ((img.width : ℤ) * 4)) hv 0 0 0 0 0
  have htot2 : V2.totals img.data (img.data.length : ℤ) ((img.width : ℤ) * 4) ((4 * k : ℕ) : ℤ)
      = ((JSNum.frac (((V2.sampled (img.data.length : ℤ) ((img.width : ℤ) * 4)
            ((4 * k : ℕ) : ℤ)).map (fun sp => V2.sampleByte img.data sp 0)).sum : ℕ) 1,
          JSNum.frac (((V2.sampled (img.data.length : ℤ) ((img.width : ℤ) * 4)
            ((4 * k : ℕ) : ℤ)).map (fun sp => V2.sampleByte img.data sp 1)).sum : ℕ) 1,
          JSNum.frac (((V2.sampled (img.data.length : ℤ) ((img.width : ℤ) * 4)
            ((4 * k : ℕ) : ℤ)).map (fun sp => V2.sampleByte img.data sp 2)).sum : ℕ) 1,
          JSNum.frac (((V2.sampled (img.data.length : ℤ) ((img.width : ℤ) * 4)
            ((4 * k : ℕ) : ℤ)).map (fun sp => V2.sampleByte img.data sp 3)).sum : ℕ) 1),
         (V2.sampled (img.data.length : ℤ) ((img.width : ℤ) * 4) ((4 * k : ℕ) : ℤ)).length) := by
    unfold V2.totals
    rw [htot]
    unfold V2.sampled
    rw [List.countP_eq_length_filter]
    simp only [zero_add]
  have hcnt := sampled_v2_length_pos img k hk hlen
  rcases (by omega : ch = 0 ∨ ch = 1 ∨ ch = 2 ∨ ch = 3) with h | h | h | h <;> subst h <;>
    · unfold V2.pixelValue
      rw [htot2]
      show jsDivNat (JSNum.frac _ 1) _ = _
      simp only [jsDivNat]
      rw [if_neg (by omega), one_mul]

lemma clampFrac_eq_round (S n : ℕ) (hn : n ≠ 0) (hS : S ≤ 255 * n) :
    clampFrac (S : ℤ) n = roundHalfEvenDiv S n := by
  unfold clampFrac
  split_ifs with h1 h2
  · have hS0 : S = 0 := by omega
    subst hS0
    simp [roundHalfEvenDiv, hn, Nat.pos_of_ne_zero hn]
  · have hSe : S = 255 * n := by omega
    subst hSe
    unfold roundHalfEvenDiv
    rw [if_neg hn, Nat.mul_mod_left]
    rw [if_pos (by simpa using Nat.pos_of_ne_zero hn)]
    rw [Nat.mul_div_cancel _ (Nat.pos_of_ne_zero hn)]
  · rw [Int.toNat_natCast]

lemma clampJS_frac (S n : ℕ) (hn : n ≠ 0) :
    clampJS (JSNum.frac (S : ℤ) n) = clampFrac (S : ℤ) n := by
  simp only [clampJS]
  rw [if_neg hn]

lemma mapped_sum_le {α : Type} (L : List α) (f : α → ℕ) (h : ∀ a ∈ L, f a ≤ 255) :
    (L.map f).sum ≤ 255 * L.length := by
  have hb := List.sum_le_card_nsmul (L.map f) 255 (by
    intro v hv
    rcases List.mem_map.mp hv with ⟨a, ha, rfl⟩
    exact h a ha)
  simp only [List.length_map, smul_eq_mul] at hb
  omega

lemma sampleByte_eq_byteN (img : ImageData) (c : ℤ × ℤ) (h1 : 0 ≤ c.1) (h2 : 0 ≤ c.2)
    (ch : ℕ) : V1.sampleByte img c ch = byteN img c ch := by
  unfold V1.sampleByte byteN
  congr 1
  have e : c.2 * (img.width : ℤ) * 4 + c.1 * 4
      = (((c.2.toNat * img.width + c.1.toNat) * 4 : ℕ) : ℤ) := by
    push_cast [Int.toNat_of_nonneg h1, Int.toNat_of_nonneg h2]
    ring
  rw [e, Int.toNat_natCast]

lemma sampleByte_v2_eq_byteN (img : ImageData) (a b : ℤ) (sp : ℤ) (h1 : 0 ≤ a) (h2 : 0 ≤ b)
    (hsp : sp = (b * (img.width : ℤ) + a) * 4) (ch : ℕ) :
    V2.sampleByte img.data sp ch = byteN img (a, b) ch := by
  unfold V2.sampleByte byteN
  congr 1
  have e : sp = (((b.toNat * img.width + a.toNat) * 4 : ℕ) : ℤ) := by
    rw [hsp]
    push_cast [Int.toNat_of_nonneg h1, Int.toNat_of_nonneg h2]
    ring
  rw [e, Int.toNat_natCast]

lemma posList_eq (n : ℕ) : V2.posList (4 * n) = (List.range n).map (fun k => ((4 * k : ℕ) : ℤ)) := by
  unfold V2.posList
  rw [show (4 * n + 3) / 4 = n from by omega]

lemma blurPassTwoBuf_eq_writeAll (src : List ℕ) (len w4 : ℤ) (wh : ℕ) (dst : List ℕ) :
    V2.blurPassTwoBuf src len w4 ((List.range wh).map (fun k => ((4 * k : ℕ) : ℤ))) dst
      = writeAll ((List.range wh).map
          (fun k => (4 * k, V2.pixelValue src len w4 ((4 * k : ℕ) : ℤ)))) dst := by
  unfold V2.blurPassTwoBuf writeAll
  rw [List.foldl_map, List.foldl_map]

lemma writeAll_range4_get (wh : ℕ) (F : ℕ → Pix4) (d : List ℕ) (hd : d.length = 4 * wh)
    (k c : ℕ) (hk : k < wh) (hc : c < 4) :
    (writeAll ((List.range wh).map (fun k => (4 * k, F k))) d).get? (4 * k + c)
      = some (clampJS (pixGet (F k) c)) := by
  apply writeAll_get_mem _ d ?_ ?_ ?_ (4 * k) (F k) ?_ c hc
  · rw [List.map_map]
    apply (List.nodup_range wh).map_on
    intro a _ b _ hab
    simp only [Function.comp_apply] at hab
    omega
  · intro e he
    rcases List.mem_map.mp he with ⟨j, _, rfl⟩
    exact ⟨j, rfl⟩
  · intro e he
    rcases List.mem_map.mp he with ⟨j, hj, rfl⟩
    have := List.mem_range.mp hj
    show 4 * j + 4 ≤ d.length
    omega
  · exact List.mem_map_of_mem _ (List.mem_range.mpr hk)

lemma pixByte_blur2 (img : ImageData) (x y ch : ℕ) (hx : x < img.width)
    (hy : y < img.height) (hch : ch < 4)
    (hlen : img.data.length = 4 * img.width * img.height) :
    pixByte (V2.blur img 1) x y ch
      = some (clampJS (pixGet (V2.pixelValue img.data (img.data.length : ℤ)
          ((img.width : ℤ) * 4) ((4 * (y * img.width + x) : ℕ) : ℤ)) ch)) := by
  have hpl : V2.posList img.data.length
      = (List.range (img.width * img.height)).map (fun k => ((4 * k : ℕ) : ℤ)) := by
    rw [hlen, show 4 * img.width * img.height = 4 * (img.width * img.height) from by ring,
      posList_eq]
  show (V2.blurPassTwoBuf img.data (img.data.length : ℤ) ((img.width : ℤ) * 4)
      (V2.posList img.data.length)
      (List.replicate (4 * img.width * img.height) 0)).get?
      ((y * img.width + x) * 4 + ch) = _
  rw [hpl, blurPassTwoBuf_eq_writeAll]
  have hidx : (y * img.width + x) * 4 + ch = 4 * (y * img.width + x) + ch := by ring
  rw [hidx]
  exact writeAll_range4_get (img.width * img.height) _ _
    (by rw [List.length_replicate]; ring) (y * img.width + x) ch
    (pixel_index_lt img.width img.height x y hx hy) hch

lemma box3x3_filter_v1 (x y : ℤ) :
    (box3x3 x y).filter (fun p => p ≠ (x + 1, y))
      = [(x - 1, y - 1), (x, y - 1), (x + 1, y - 1), (x - 1, y), (x, y),
         (x - 1, y + 1), (x, y + 1), (x + 1, y + 1)] := by
  unfold box3x3
  rw [List.filter_cons_of_pos (by simp [Prod.ext_iff] <;> omega),
    List.filter_cons_of_pos (by simp [Prod.ext_iff] <;> omega),
    List.filter_cons_of_pos (by simp [Prod.ext_iff] <;> omega),
    List.filter_cons_of_pos (by simp [Prod.ext_iff] <;> omega),
    List.filter_cons_of_pos (by simp [Prod.ext_iff] <;> omega),
    List.filter_cons_of_neg (by simp),
    List.filter_cons_of_pos (by simp [Prod.ext_iff] <;> omega),
    List.filter_cons_of_pos (by simp [Prod.ext_iff] <;> omega),
    List.filter_cons_of_pos (by simp [Prod.ext_iff] <;> omega),
    List.filter_nil]

lemma box3x3_filter_v2 (x y : ℤ) :
    (box3x3 x y).filter (fun p => p ≠ (x, y))
      = [(x - 1, y - 1), (x, y - 1), (x + 1, y - 1), (x - 1, y), (x + 1, y),
         (x - 1, y + 1), (x, y + 1), (x + 1, y + 1)] := by
  unfold box3x3
  rw [List.filter_cons_of_pos (by simp [Prod.ext_iff] <;> omega),
    List.filter_cons_of_pos (by simp [Prod.ext_iff] <;> omega),
    List.filter_cons_of_pos (by simp [Prod.ext_iff] <;> omega),
    List.filter_cons_of_pos (by simp [Prod.ext_iff] <;> omega),
    List.filter_cons_of_neg (by simp),
    List.filter_cons_of_pos (by simp [Prod.ext_iff] <;> omega),
    List.filter_cons_of_pos (by simp [Prod.ext_iff] <;> omega),
    List.filter_cons_of_pos (by simp [Prod.ext_iff] <;> omega),
    List.filter_cons_of_pos (by simp [Prod.ext_iff] <;> omega),
    List.filter_nil]

lemma surroundingPixels_eq_filter (x y : ℤ) :
    V1.surroundingPixels x y = (box3x3 x y).filter (fun p => p ≠ (x + 1, y)) := by
  rw [box3x3_filter_v1]
  unfold V1.surroundingPixels
  norm_num

lemma sampled_v2_interior (img : ImageData) (x y : ℕ) (hx1 : 1 ≤ x) (hx2 : x + 1 < img.width)
    (hy1 : 1 ≤ y) (hy2 : y + 1 < img.height)
    (hlen : img.data.length = 4 * img.width * img.height) :
    V2.sampled (img.data.length : ℤ) ((img.width : ℤ) * 4)
        ((4 * (y * img.width + x) : ℕ) : ℤ)
      = V2.surroundingPixels ((4 * (y * img.width + x) : ℕ) : ℤ) ((img.width : ℤ) * 4) := by
  unfold V2.sampled
  apply List.filter_eq_self.mpr
  intro sp hsp
  have h1 : img.width ≤ y * img.width := Nat.le_mul_of_pos_left _ (by omega)
  have hU : (y + 1) * img.width + (x + 1) < img.width * img.height :=
    pixel_index_lt img.width img.height (x + 1) (y + 1) hx2 hy2
  have hexp : (y + 1) * img.width = y * img.width + img.width := by ring
  have hassoc : 4 * img.width * img.height = 4 * (img.width * img.height) := by ring
  simp only [V2.surroundingPixels, List.mem_cons, List.not_mem_nil, or_false] at hsp
  rw [decide_eq_true_eq]
  rcases hsp with rfl | rfl | rfl | rfl | rfl | rfl | rfl | rfl <;> constructor <;> omega

lemma byteN_le_255 (img : ImageData) (hwf : img.WF) (p : ℤ × ℤ) (ch : ℕ) :
    byteN img p ch ≤ 255 := by
  unfold byteN
  exact getD_le_all img.data hwf.2 _

lemma blur1_interior (img : ImageData) (hwf : img.WF) (x y ch : ℕ)
    (hx1 : 1 ≤ x) (hx2 : x + 1 < img.width) (hy1 : 1 ≤ y) (hy2 : y + 1 < img.height)
    (hch : ch < 4) :
    pixByte (V1.blur img 1) x y ch
      = some (specStoredAvg (((box3x3 (x : ℤ) (y : ℤ)).filter
          (fun p => p ≠ ((x : ℤ) + 1, (y : ℤ)))).map (fun p => byteN img p ch))) := by
  rw [pixByte_blur1 img x y ch (by omega) (by omega) hch]
  have hzU : ((y : ℤ) + 1) * (img.width : ℤ) + ((x : ℤ) + 1)
      < (img.width : ℤ) * (img.height : ℤ) := by
    exact_mod_cast pixel_index_lt img.width img.height (x + 1) (y + 1) hx2 hy2
  have hE1 : ((y : ℤ) - 1) * (img.width : ℤ)
      = (y : ℤ) * (img.width : ℤ) - (img.width : ℤ) := by ring
  have hE2 : ((y : ℤ) + 1) * (img.width : ℤ)
      = (y : ℤ) * (img.width : ℤ) + (img.width : ℤ) := by ring
  have hlenz : (img.data.length : ℤ) = 4 * ((img.width : ℤ) * (img.height : ℤ)) := by
    rw [hwf.1]
    push_cast
    ring
  have hIn : ∀ c ∈ V1.surroundingPixels (x : ℤ) (y : ℤ), (V1.getPixelV img c.1 c.2).isSome →
      c.2 * (img.width : ℤ) * 4 + c.1 * 4 + 4 ≤ (img.data.length : ℤ) := by
    intro c hc _
    simp only [V1.surroundingPixels, List.mem_cons, List.not_mem_nil, or_false] at hc
    rcases hc with rfl | rfl | rfl | rfl | rfl | rfl | rfl | rfl <;> dsimp only <;> omega
  rw [pixelValue_v1_frac img x y ch (by omega) (by omega) hch hIn]
  rw [sampled_v1_interior img x y hx1 hx2 hy1 hy2, surroundingPixels_eq_filter]
  have e1 : V1.sampleByte img ((x : ℤ) - 1, (y : ℤ) - 1) ch
      = byteN img ((x : ℤ) - 1, (y : ℤ) - 1) ch :=
    sampleByte_eq_byteN img _ (by show (0 : ℤ) ≤ (x : ℤ) - 1; omega)
      (by show (0 : ℤ) ≤ (y : ℤ) - 1; omega) ch
  have e2 : V1.sampleByte img ((x : ℤ), (y : ℤ) - 1) ch
      = byteN img ((x : ℤ), (y : ℤ) - 1) ch :=
    sampleByte_eq_byteN img _ (by show (0 : ℤ) ≤ (x : ℤ); omega)
      (by show (0 : ℤ) ≤ (y : ℤ) - 1; omega) ch
  have e3 : V1.sampleByte img ((x : ℤ) + 1, (y : ℤ) - 1) ch
      = byteN img ((x : ℤ) + 1, (y : ℤ) - 1) ch :=
    sampleByte_eq_byteN img _ (by show (0 : ℤ) ≤ (x : ℤ) + 1; omega)
      (by show (0 : ℤ) ≤ (y : ℤ) - 1; omega) ch
  have e4 : V1.sampleByte img ((x : ℤ) - 1, (y : ℤ)) ch
      = byteN img ((x : ℤ) - 1, (y : ℤ)) ch :=
    sampleByte_eq_byteN img _ (by show (0 : ℤ) ≤ (x : ℤ) - 1; omega)
      (by show (0 : ℤ) ≤ (y : ℤ); omega) ch
  have e5 : V1.sampleByte img ((x : ℤ), (y : ℤ)) ch
      = byteN img ((x : ℤ), (y : ℤ)) ch :=
    sampleByte_eq_byteN img _ (by show (0 : ℤ) ≤ (x : ℤ); omega)
      (by show (0 : ℤ) ≤ (y : ℤ); omega) ch
  have e6 : V1.sampleByte img ((x : ℤ) - 1, (y : ℤ) + 1) ch
      = byteN img ((x : ℤ) - 1, (y : ℤ) + 1) ch :=
    sampleByte_eq_byteN img _ (by show (0 : ℤ) ≤ (x : ℤ) - 1; omega)
      (by show (0 : ℤ) ≤ (y : ℤ) + 1; omega) ch
  have e7 : V1.sampleByte img ((x : ℤ), (y : ℤ) + 1) ch
      = byteN img ((x : ℤ), (y : ℤ) + 1) ch :=
    sampleByte_eq_byteN img _ (by show (0 : ℤ) ≤ (x : ℤ); omega)
      (by show (0 : ℤ) ≤ (y : ℤ) + 1; omega) ch
  have e8 : V1.sampleByte img ((x : ℤ) + 1, (y : ℤ) + 1) ch
      = byteN img ((x : ℤ) + 1, (y : ℤ) + 1) ch :=
    sampleByte_eq_byteN img _ (by show (0 : ℤ) ≤ (x : ℤ) + 1; omega)
      (by show (0 : ℤ) ≤ (y : ℤ) + 1; omega) ch
  have hmap : ((box3x3 (x : ℤ) (y : ℤ)).filter (fun p => p ≠ ((x : ℤ) + 1, (y : ℤ)))).map
      (fun c => V1.sampleByte img c ch)
      = ((box3x3 (x : ℤ) (y : ℤ)).filter (fun p => p ≠ ((x : ℤ) + 1, (y : ℤ)))).map
        (fun p => byteN img p ch) := by
    rw [box3x3_filter_v1]
    simp only [List.map_cons, List.map_nil]
    rw [e1, e2, e3, e4, e5, e6, e7, e8]
  rw [hmap]
  have hlen8 : ((box3x3 (x : ℤ) (y : ℤ)).filter
      (fun p => p ≠ ((x : ℤ) + 1, (y : ℤ)))).length = 8 := by
    rw [box3x3_filter_v1]
    rfl
  have hbound := mapped_sum_le ((box3x3 (x : ℤ) (y : ℤ)).filter
      (fun p => p ≠ ((x : ℤ) + 1, (y : ℤ)))) (fun p => byteN img p ch)
    (fun p _ => byteN_le_255 img hwf p ch)
  congr 1
  rw [clampJS_frac _ _ (by rw [hlen8]; omega)]
  rw [clampFrac_eq_round _ _ (by rw [hlen8]; omega) hbound]
  unfold specStoredAvg
  rw [List.length_map]

lemma blur2_interior (img : ImageData) (hwf : img.WF) (x y ch : ℕ)
    (hx1 : 1 ≤ x) (hx2 : x + 1 < img.width) (hy1 : 1 ≤ y) (hy2 : y + 1 < img.height)
    (hch : ch < 4) :
    pixByte (V2.blur img 1) x y ch
      = some (specStoredAvg (((box3x3 (x : ℤ) (y : ℤ)).filter
          (fun p => p ≠ ((x : ℤ), (y : ℤ)))).map (fun p => byteN img p ch))) := by
  rw [pixByte_blur2 img x y ch (by omega) (by omega) hch hwf.1]
  rw [pixelValue_v2_frac img (y * img.width + x) ch hch
    (pixel_index_lt img.width img.height x y (by omega) (by omega)) hwf.1]
  rw [sampled_v2_interior img x y hx1 hx2 hy1 hy2 hwf.1]
  have e1 : V2.sampleByte img.data (((4 * (y * img.width + x) : ℕ) : ℤ)
        - (img.width : ℤ) * 4 - 4) ch = byteN img ((x : ℤ) - 1, (y : ℤ) - 1) ch :=
    sampleByte_v2_eq_byteN img ((x : ℤ) - 1) ((y : ℤ) - 1) _ (by omega) (by omega)
      (by push_cast; ring) ch
  have e2 : V2.sampleByte img.data (((4 * (y * img.width + x) : ℕ) : ℤ)
        - (img.width : ℤ) * 4) ch = byteN img ((x : ℤ), (y : ℤ) - 1) ch :=
    sampleByte_v2_eq_byteN img ((x : ℤ)) ((y : ℤ) - 1) _ (by omega) (by omega)
      (by push_cast; ring) ch
  have e3 : V2.sampleByte img.data (((4 * (y * img.width + x) : ℕ) : ℤ)
        - (img.width : ℤ) * 4 + 4) ch = byteN img ((x : ℤ) + 1, (y : ℤ) - 1) ch :=
    sampleByte_v2_eq_byteN img ((x : ℤ) + 1) ((y : ℤ) - 1) _ (by omega) (by omega)
      (by push_cast; ring) ch
  have e4 : V2.sampleByte img.data (((4 * (y * img.width + x) : ℕ) : ℤ) - 4) ch
      = byteN img ((x : ℤ) - 1, (y : ℤ)) ch :=
    sampleByte_v2_eq_byteN img ((x : ℤ) - 1) ((y : ℤ)) _ (by omega) (by omega)
      (by push_cast; ring) ch
  have e5 : V2.sampleByte img.data (((4 * (y * img.width + x) : ℕ) : ℤ) + 4) ch
      = byteN img ((x : ℤ) + 1, (y : ℤ)) ch :=
    sampleByte_v2_eq_byteN img ((x : ℤ) + 1) ((y : ℤ)) _ (by omega) (by omega)
      (by push_cast; ring) ch
  have e6 : V2.sampleByte img.data (((4 * (y * img.width + x) : ℕ) : ℤ)
        + (img.width : ℤ) * 4 - 4) ch = byteN img ((x : ℤ) - 1, (y : ℤ) + 1) ch :=
    sampleByte_v2_eq_byteN img ((x : ℤ) - 1) ((y : ℤ) + 1) _ (by omega) (by omega)
      (by push_cast; ring) ch
  have e7 : V2.sampleByte img.data (((4 * (y * img.width + x) : ℕ) : ℤ)
        + (img.width : ℤ) * 4) ch = byteN img ((x : ℤ), (y : ℤ) + 1) ch :=
    sampleByte_v2_eq_byteN img ((x : ℤ)) ((y : ℤ) + 1) _ (by omega) (by omega)
      (by push_cast; ring) ch
  have e8 : V2.sampleByte img.data (((4 * (y * img.width + x) : ℕ) : ℤ)
        + (img.width : ℤ) * 4 + 4) ch = byteN img ((x : ℤ) + 1, (y : ℤ) + 1) ch :=
    sampleByte_v2_eq_byteN img ((x : ℤ) + 1) ((y : ℤ) + 1) _ (by omega) (by omega)
      (by push_cast; ring) ch
  have hmap : (V2.surroundingPixels ((4 * (y * img.width + x) : ℕ) : ℤ)
        ((img.width : ℤ) * 4)).map (fun sp => V2.sampleByte img.data sp ch)
      = ((box3x3 (x : ℤ) (y : ℤ)).filter (fun p => p ≠ ((x : ℤ), (y : ℤ)))).map
        (fun p => byteN img p ch) := by
    rw [box3x3_filter_v2]
    simp only [V2.surroundingPixels, List.map_cons, List.map_nil]
    rw [e1, e2, e3, e4, e5, e6, e7, e8]
  rw [hmap]
  have hL : (V2.surroundingPixels ((4 * (y * img.width + x) : ℕ) : ℤ)
      ((img.width : ℤ) * 4)).length = 8 := rfl
  have hlen8 : ((box3x3 (x : ℤ) (y : ℤ)).filter
      (fun p => p ≠ ((x : ℤ), (y : ℤ)))).length = 8 := by
    rw [box3x3_filter_v2]
    rfl
  have hbound := mapped_sum_le ((box3x3 (x : ℤ) (y : ℤ)).filter
      (fun p => p ≠ ((x : ℤ), (y : ℤ)))) (fun p => byteN img p ch)
    (fun p _ => byteN_le_255 img hwf p ch)
  rw [hL]
  congr 1
  rw [clampJS_frac _ _ (by omega)]
  rw [clampFrac_eq_round _ _ (by omega) (by rw [hlen8] at hbound; exact hbound)]
  unfold specStoredAvg
  rw [List.length_map, hlen8]

/-- **C1** (amended): at every interior pixel of a well-formed image, one
pass of `blur` stores into each channel the rounded average over the 3x3
neighborhood with one position removed — in version 1 the right neighbor
`(x+1, y)` is never sampled (the center is sampled in its place, because
`surroundingPixels` lists `[x * 1, y]` instead of `[x + 1, y]`), and in
version 2 the center `(x, y)` itself is never sampled (its offset list
omits offset 0). Neither version averages over the full 3x3 in-bounds
neighborhood claimed. -/
theorem blur_interior_average (img : ImageData) (hwf : img.WF) (x y ch : ℕ)
    (hx1 : 1 ≤ x) (hx2 : x + 1 < img.width) (hy1 : 1 ≤ y) (hy2 : y + 1 < img.height)
    (hch : ch < 4) :
    pixByte (V1.blur img 1) x y ch
      = some (specStoredAvg (((box3x3 (x : ℤ) (y : ℤ)).filter
          (fun p => p ≠ ((x : ℤ) + 1, (y : ℤ)))).map (fun p => byteN img p ch)))
    ∧ pixByte (V2.blur img 1) x y ch
      = some (specStoredAvg (((box3x3 (x : ℤ) (y : ℤ)).filter
          (fun p => p ≠ ((x : ℤ), (y : ℤ)))).map (fun p => byteN img p ch))) :=
  ⟨blur1_interior img hwf x y ch hx1 hx2 hy1 hy2 hch,
   blur2_interior img hwf x y ch hx1 hx2 hy1 hy2 hch⟩

set_option maxRecDepth 40000 in
/-- Witness for `blur_interior_average`: the 3x3 all-10 image at its
interior pixel `(1, 1)`, channel 0. -/
theorem blur_interior_average_witness :
    imgW3.WF ∧
    (pixByte (V1.blur imgW3 1) 1 1 0
        = some (specStoredAvg (((box3x3 ((1 : ℕ) : ℤ) ((1 : ℕ) : ℤ)).filter
            (fun p => p ≠ (((1 : ℕ) : ℤ) + 1, ((1 : ℕ) : ℤ)))).map (fun p => byteN imgW3 p 0)))
      ∧ pixByte (V2.blur imgW3 1) 1 1 0
        = some (specStoredAvg (((box3x3 ((1 : ℕ) : ℤ) ((1 : ℕ) : ℤ)).filter
            (fun p => p ≠ (((1 : ℕ) : ℤ), ((1 : ℕ) : ℤ)))).map (fun p => byteN imgW3 p 0)))) :=
  ⟨by decide, blur_interior_average imgW3 (by decide) 1 1 0 (by decide) (by decide)
    (by decide) (by decide) (by decide)⟩

set_option maxRecDepth 40000 in
/-- **C1** counterexample: the claimed average over the full in-bounds 3x3
neighborhood (`specAvgQ`) disagrees with what `blur` stores. Version 1 on
the 2x1 image `[8…, 16…]` stores 0 into channel 0 of pixel `(0, 0)` (the
unchecked read at `y = 1` poisons the totals with NaN, which `Uint8ClampedArray`
stores as 0) while the 3x3 in-bounds average is `(8 + 16) / 2 = 12`; version 2
on a 3x3 image whose only nonzero pixel is the center stores 0 into channel 0
of the center pixel (the center is never sampled) while the 3x3 in-bounds
average is `90 / 9 = 10`. -/
theorem blur_not_box_average :
    (pixByte (V1.blur imgB2 1) 0 0 0).map (fun b => ((b : ℕ) : ℚ))
        ≠ some (specAvgQ imgB2 0 0 0)
    ∧ (pixByte (V2.blur imgC3 1) 1 1 0).map (fun b => ((b : ℕ) : ℚ))
        ≠ some (specAvgQ imgC3 1 1 0) := by
  have h1 : pixByte (V1.blur imgB2 1) 0 0 0 = some 0 := by decide
  have h2 : pixByte (V2.blur imgC3 1) 1 1 0 = some 0 := by decide
  have a1 : specAvgQ imgB2 0 0 0 = 12 := by
    rw [specAvgQ_eval]
    rw [show (box3x3 0 0).filter (inBoundsP imgB2) = [(0, 0), (1, 0)] from by decide]
    simp only [List.map_cons, List.map_nil, List.sum_cons, List.sum_nil,
      List.length_cons, List.length_nil]
    rw [show byteN imgB2 (0, 0) 0 = 8 from by decide,
        show byteN imgB2 (1, 0) 0 = 16 from by decide]
    norm_num
  have a2 : specAvgQ imgC3 1 1 0 = 10 := by
    rw [specAvgQ_eval]
    rw [show (box3x3 1 1).filter (inBoundsP imgC3)
        = [(0, 0), (1, 0), (2, 0), (0, 1), (1, 1), (2, 1), (0, 2), (1, 2), (2, 2)] from by decide]
    simp only [List.map_cons, List.map_nil, List.sum_cons, List.sum_nil,
      List.length_cons, List.length_nil]
    rw [show byteN imgC3 (1, 1) 0 = 90 from by decide]
    rw [show byteN imgC3 (0, 0) 0 = 0 from by decide,
        show byteN imgC3 (1, 0) 0 = 0 from by decide,
        show byteN imgC3 (2, 0) 0 = 0 from by decide,
        show byteN imgC3 (0, 1) 0 = 0 from by decide,
        show byteN imgC3 (2, 1) 0 = 0 from by decide,
        show byteN imgC3 (0, 2) 0 = 0 from by decide,
        show byteN imgC3 (1, 2) 0 = 0 from by decide,
        show byteN imgC3 (2, 2) 0 = 0 from by decide]
    norm_num
  constructor
  · intro h
    rw [h1, a1] at h
    norm_num at h
  · intro h
    rw [h2, a2] at h
    norm_num at h
